import Mathlib

/-!
Shallow embedding of the timeline position model of the zt-video-tools
repository (single-track video editor).

The definitions below are translated from the TypeScript sources:
  - `src/domain/entities/Clip.ts`
  - `src/domain/entities/Transition.ts`
  - `src/domain/entities/Timeline.ts`
  - the zustand editor store (`setTransition` action)
  - the playback synchronizer (`usePlaybackSync`, transition branch)
  - `VideoExporter.export` (progress reporting)
  - `src/presentation/components/Preview/utils.ts` (canvas compositor)

Times and durations (`Seconds` in the source) are modelled as `ℚ`.
JavaScript `Map`s are modelled as association lists in insertion order:
`get` returns the first matching entry, `set` overwrites in place or
appends, `delete` removes the entry with the given key.  Opaque fields of
`Clip` (source file handle, metadata, thumbnail, creation date) are
omitted: no verified claim mentions them.
-/

/-- Embeds `Clip` (`Clip.ts`): trim window within the source video.
`id` and `name` are kept; opaque media fields are omitted. -/
structure Clip where
  id : String
  name : String
  trimStart : ℚ
  trimEnd : ℚ
deriving DecidableEq

/-- Embeds `getClipDuration` (`Clip.ts`): effective duration of a clip. -/
def getClipDuration (clip : Clip) : ℚ :=
  clip.trimEnd - clip.trimStart

/-- Embeds `TransitionType` (`Transition.ts`). -/
inductive TransitionType where
  | none
  | crossfade
  | fadeToBlack
  | fadeToWhite
deriving DecidableEq

/-- Embeds `Transition` (`Transition.ts`). -/
structure Transition where
  id : String
  type : TransitionType
  duration : ℚ
deriving DecidableEq

/-- Embeds `DEFAULT_TRANSITION_DURATION` (`Transition.ts`). -/
def DEFAULT_TRANSITION_DURATION : ℚ := 1

/-- Embeds `createTransition` (`Transition.ts`); the optional duration
defaults to `DEFAULT_TRANSITION_DURATION`. -/
def createTransition (id : String) (type : TransitionType) (duration : Option ℚ) : Transition :=
  { id := id, type := type, duration := duration.getD DEFAULT_TRANSITION_DURATION }

/-- Embeds `createTransitionKey` (`Transition.ts`): `fromClipId_toClipId`. -/
def createTransitionKey (fromClipId toClipId : String) : String :=
  fromClipId ++ "_" ++ toClipId

/-- Embeds `getMaxTransitionDuration` (`Transition.ts`):
`Math.min(outgoing, incoming) * 2`. -/
def getMaxTransitionDuration (outgoingClipDuration incomingClipDuration : ℚ) : ℚ :=
  min outgoingClipDuration incomingClipDuration * 2

/-- JavaScript `String.prototype.includes`: substring containment. -/
def jsIncludes (s sub : String) : Bool :=
  decide (sub.data <:+: s.data)

/-- Association-list model of a JavaScript `Map` value lookup:
first entry with the given key. -/
def assocGet {α : Type} (m : List (String × α)) (k : String) : Option α :=
  (m.find? (fun kv => kv.1 = k)).map Prod.snd

/-- Association-list model of `Map.prototype.set`: overwrite the existing
entry in place, else append at the end (JS insertion-order semantics). -/
def assocSet {α : Type} : List (String × α) → String → α → List (String × α)
  | [], k, v => [(k, v)]
  | kv :: rest, k, v =>
    if kv.1 = k then (k, v) :: rest else kv :: assocSet rest k v

/-- Association-list model of `Map.prototype.delete`. -/
def assocDelete {α : Type} (m : List (String × α)) (k : String) : List (String × α) :=
  m.filter (fun kv => kv.1 ≠ k)

/-- The editor's clip collection (`Map<EntityId, Clip>`). -/
abbrev ClipMap := List (String × Clip)

/-- The timeline's transition map (`Map<string, Transition>`). -/
abbrev TransitionMap := List (String × Transition)

/-- Looks up a clip by id in the owned clip collection. -/
def clipsGet (clips : ClipMap) (clipId : String) : Option Clip :=
  assocGet clips clipId

/-- Embeds `Timeline` (`Timeline.ts`): ordered clip ids plus the sparse
transition map keyed `fromClipId_toClipId`. -/
structure Timeline where
  clipIds : List String
  transitions : TransitionMap
deriving DecidableEq

/-- Embeds `createTimeline` (`Timeline.ts`). -/
def createTimeline : Timeline :=
  { clipIds := [], transitions := [] }

/-- Embeds `addClipToTimeline` (`Timeline.ts`): appends at the end. -/
def addClipToTimeline (timeline : Timeline) (clipId : String) : Timeline :=
  { timeline with clipIds := timeline.clipIds ++ [clipId] }

/-- Embeds `removeClipFromTimeline` (`Timeline.ts`): filters the id out of
the sequence and deletes every transition whose key `includes` the id
(substring test, as in the source). -/
def removeClipFromTimeline (timeline : Timeline) (clipId : String) : Timeline :=
  { clipIds := timeline.clipIds.filter (fun i => i ≠ clipId),
    transitions := timeline.transitions.filter (fun kv => !jsIncludes kv.1 clipId) }

/-- JavaScript `Array.prototype.indexOf` specialised to the hit case:
index of the first occurrence, `none` when absent (the source returns -1). -/
def jsIndexOf (x : String) : List String → Option ℕ
  | [] => Option.none
  | y :: ys => if y = x then some 0 else (jsIndexOf x ys).map (· + 1)

/-- JavaScript `Array.prototype.splice` start-index normalisation for a
list of length `len`: a negative start counts back from the end (floored
at 0), a start past the end is clamped to `len`. -/
def spliceIndex (len : ℕ) (start : ℤ) : ℕ :=
  if start < 0 then ((len : ℤ) + start).toNat else min start.toNat len

/-- Embeds `moveClipInTimeline` (`Timeline.ts`): `splice` the clip out of
its current position, `splice` it back in at `newIndex`, and purge every
transition whose key `includes` the moved id.  The `throw` on a missing
clip id is modelled as `Except.error`. -/
def moveClipInTimeline (timeline : Timeline) (clipId : String) (newIndex : ℤ) :
    Except String Timeline :=
  match jsIndexOf clipId timeline.clipIds with
  | Option.none => Except.error ("Clip " ++ clipId ++ " not found in timeline")
  | some currentIndex =>
    let removed := timeline.clipIds.eraseIdx currentIndex
    let newClipIds := List.insertIdx (spliceIndex removed.length newIndex) clipId removed
    Except.ok
      { clipIds := newClipIds,
        transitions := timeline.transitions.filter (fun kv => !jsIncludes kv.1 clipId) }

/-- Embeds `setTransition` (`Timeline.ts`): both clips must exist and be
adjacent (`toIndex == fromIndex + 1`); the `throw`s are `Except.error`. -/
def setTransition (timeline : Timeline) (fromClipId toClipId : String)
    (transition : Transition) : Except String Timeline :=
  match jsIndexOf fromClipId timeline.clipIds, jsIndexOf toClipId timeline.clipIds with
  | some fromIndex, some toIndex =>
    if toIndex = fromIndex + 1 then
      Except.ok
        { timeline with
          transitions :=
            assocSet timeline.transitions (createTransitionKey fromClipId toClipId) transition }
    else Except.error "Clips must be adjacent to have a transition"
  | _, _ => Except.error "Both clips must exist in timeline"

/-- Embeds `removeTransition` (`Timeline.ts`). -/
def removeTransition (timeline : Timeline) (fromClipId toClipId : String) : Timeline :=
  { timeline with
    transitions := assocDelete timeline.transitions (createTransitionKey fromClipId toClipId) }

/-- Embeds `getTransitionBetween` (`Timeline.ts`). -/
def getTransitionBetween (timeline : Timeline) (fromClipId toClipId : String) :
    Option Transition :=
  assocGet timeline.transitions (createTransitionKey fromClipId toClipId)

/-- The transition overlap subtracted after a clip: the duration of the
transition keyed to the next clip id in the walk, 0 when there is no next
clip or no transition (the `if (transition) totalDuration -= ...` step of
the source loops). -/
def transitionOverlapAfter (transitions : TransitionMap) (clipId : String) :
    List String → ℚ
  | nextClipId :: _ =>
    match assocGet transitions (createTransitionKey clipId nextClipId) with
    | some transition => transition.duration
    | Option.none => 0
  | [] => 0

/-- Loop body of `getTimelineDuration` (`Timeline.ts`): walks the clip id
sequence; a clip id missing from the collection is skipped entirely
(`continue`), otherwise its duration is added and the overlap with the
next id's transition (if any) subtracted. -/
def timelineDurationLoop (clips : ClipMap) (transitions : TransitionMap) : List String → ℚ
  | [] => 0
  | clipId :: rest =>
    match clipsGet clips clipId with
    | Option.none => timelineDurationLoop clips transitions rest
    | some clip =>
      getClipDuration clip - transitionOverlapAfter transitions clipId rest
        + timelineDurationLoop clips transitions rest

/-- Embeds `getTimelineDuration` (`Timeline.ts`): clamped to `≥ 0`. -/
def getTimelineDuration (timeline : Timeline) (clips : ClipMap) : ℚ :=
  max 0 (timelineDurationLoop clips timeline.transitions timeline.clipIds)

/-- Loop body of `calculateClipPositions` (`Timeline.ts`): forward pass
accumulating start positions; missing clips are skipped without advancing
time, transitions subtract their overlap. -/
def clipPositionsLoop (clips : ClipMap) (transitions : TransitionMap) :
    List String → ℚ → List (String × ℚ)
  | [], _ => []
  | clipId :: rest, currentTime =>
    match clipsGet clips clipId with
    | Option.none => clipPositionsLoop clips transitions rest currentTime
    | some clip =>
      (clipId, currentTime) ::
        clipPositionsLoop clips transitions rest
          (currentTime + getClipDuration clip
            - transitionOverlapAfter transitions clipId rest)

/-- Embeds `calculateClipPositions` (`Timeline.ts`). -/
def calculateClipPositions (timeline : Timeline) (clips : ClipMap) : List (String × ℚ) :=
  clipPositionsLoop clips timeline.transitions timeline.clipIds 0

/-- Embeds `TimelinePositionResult` (`Timeline.ts`): the tagged union
returned by the position resolver.  In the `transition` variant the pairs
hold the clip and its `relativeTime`. -/
inductive TimelinePositionResult where
  | empty
  | single (clip : Clip) (relativeTime : ℚ)
  | transition (outgoing incoming : Clip × ℚ) (transition : Transition) (progress : ℚ)
deriving DecidableEq

/-- Scan loop of `getClipAtTime` (`Timeline.ts`): for each positioned clip
the transition zone with the next positioned clip is checked first, then
plain containment; first hit wins, otherwise `empty`.  `progress` is
`(time - transitionStart) / duration` clamped to `[0, 1]`. -/
def positionScanLoop (clips : ClipMap) (transitions : TransitionMap) (time : ℚ) :
    List (String × ℚ) → TimelinePositionResult
  | [] => TimelinePositionResult.empty
  | (clipId, startInTimeline) :: rest =>
    match clipsGet clips clipId with
    | Option.none => positionScanLoop clips transitions time rest
    | some clip =>
      let clipEnd := startInTimeline + getClipDuration clip
      let transitionHit : Option TimelinePositionResult :=
        match rest with
        | (nextClipId, nextStart) :: _ =>
          match clipsGet clips nextClipId,
              assocGet transitions (createTransitionKey clipId nextClipId) with
          | some nextClip, some transition =>
            if nextStart ≤ time ∧ time < clipEnd then
              some (TimelinePositionResult.transition
                (clip, clip.trimStart + (time - startInTimeline))
                (nextClip, nextClip.trimStart + (time - nextStart))
                transition
                (min 1 (max 0 ((time - nextStart) / transition.duration))))
            else Option.none
          | _, _ => Option.none
        | [] => Option.none
      match transitionHit with
      | some result => result
      | Option.none =>
        if startInTimeline ≤ time ∧ time < clipEnd then
          TimelinePositionResult.single clip (clip.trimStart + (time - startInTimeline))
        else positionScanLoop clips transitions time rest

/-- Embeds `getClipAtTime` (`Timeline.ts`). -/
def getClipAtTime (timeline : Timeline) (clips : ClipMap) (time : ℚ) :
    TimelinePositionResult :=
  if timeline.clipIds = [] then TimelinePositionResult.empty
  else positionScanLoop clips timeline.transitions time (calculateClipPositions timeline clips)

/-- The half-open playback span `[startInTimeline, startInTimeline +
effectiveDuration)` of each resolvable positioned clip, in sequence
order (vocabulary for the tiling claims, built on the source functions). -/
def clipSpans (timeline : Timeline) (clips : ClipMap) : List (ℚ × ℚ) :=
  (calculateClipPositions timeline clips).filterMap
    (fun p => (clipsGet clips p.1).map (fun clip => (p.2, p.2 + getClipDuration clip)))

/-- The slice of the zustand editor store state the transition action
reads and writes (`useEditorStore`). -/
structure EditorState where
  clips : ClipMap
  timeline : Timeline
deriving DecidableEq

/-- Embeds the store's `setTransition` action (`useEditorStore`): missing
clips leave the state unchanged (the source logs a warning and returns
`state`); otherwise the requested duration (default
`DEFAULT_TRANSITION_DURATION`) is clamped with `Math.min` against
`getMaxTransitionDuration` and the timeline-level `setTransition` is
applied (whose `throw` propagates, modelled as `Except.error`). -/
def storeSetTransition (state : EditorState) (fromClipId toClipId : String)
    (type : TransitionType) (duration : Option ℚ) : Except String EditorState :=
  match clipsGet state.clips fromClipId, clipsGet state.clips toClipId with
  | some fromClip, some toClip =>
    let fromDuration := getClipDuration fromClip
    let toDuration := getClipDuration toClip
    let maxDuration := getMaxTransitionDuration fromDuration toDuration
    let finalDuration := min (duration.getD DEFAULT_TRANSITION_DURATION) maxDuration
    let transition :=
      createTransition ("transition_" ++ fromClipId ++ "_" ++ toClipId) type (some finalDuration)
    match setTransition state.timeline fromClipId toClipId transition with
    | Except.ok timeline => Except.ok { state with timeline := timeline }
    | Except.error e => Except.error e
  | _, _ => Except.ok state

/-- Embeds `SYNC_DRIFT_THRESHOLD` (`Preview.tsx`): 0.15 seconds. -/
def SYNC_DRIFT_THRESHOLD : ℚ := 15 / 100

/-- Embeds the secondary-decoder drift correction of the synchronizer tick
(`usePlaybackSync`, transition branch): when the logical clock resolves to
a transition, the incoming decoder is reseeked to its expected
`relativeTime` exactly when `Math.abs(actual - expected)` exceeds
`SYNC_DRIFT_THRESHOLD` or the decoder is paused.  Returns the position
written by the reseek, `none` when no reseek is issued. -/
def syncSecondaryOnTick (timeline : Timeline) (clips : ClipMap)
    (currentTime actualTime : ℚ) (paused : Bool) : Option ℚ :=
  match getClipAtTime timeline clips currentTime with
  | TimelinePositionResult.transition _ incoming _ _ =>
    if |actualTime - incoming.2| > SYNC_DRIFT_THRESHOLD ∨ paused = true then
      some incoming.2
    else Option.none
  | _ => Option.none

/-- Embeds the `Progress` record (`domain/types`) reported by the export
pipeline. -/
structure Progress where
  current : ℕ
  total : ℕ
  percentage : ℚ
  message : String
deriving DecidableEq

/-- The total duration computed by `VideoExporter.export`:
`clips.reduce((sum, clip) => sum + getClipDuration(clip), 0)`. -/
def exportTotalDuration (clips : List Clip) : ℚ :=
  clips.foldl (fun sum clip => sum + getClipDuration clip) 0

/-- Clip loop of `VideoExporter.export`: before rendering clip `i` it
reports `current = i` with the duration fraction processed so far; the
accumulator then advances by the clip's effective duration. -/
def exportProgressLoop (totalClips : ℕ) (totalDuration : ℚ) :
    List Clip → ℕ → ℚ → List Progress
  | [], _, _ => []
  | clip :: rest, i, processedTime =>
    { current := i, total := totalClips,
      percentage := processedTime / totalDuration * 100,
      message := "Processing clip " ++ toString (i + 1) ++ " of " ++ toString totalClips
        ++ ": " ++ clip.name }
      :: exportProgressLoop totalClips totalDuration rest (i + 1)
          (processedTime + getClipDuration clip)

/-- The sequence of progress reports issued by `VideoExporter.export`:
the per-clip loop reports followed by the final completion report; an
empty clip list throws `ExportError` (modelled as `Except.error`). -/
def exportProgressReports (clips : List Clip) : Except String (List Progress) :=
  if clips = [] then Except.error "No clips to export"
  else
    let totalDuration := exportTotalDuration clips
    Except.ok
      (exportProgressLoop clips.length totalDuration clips 0 0
        ++ [{ current := clips.length, total := clips.length, percentage := 100,
              message := "Export complete!" }])

/-- Embeds `MIN_VIDEO_READY_STATE` (`Preview.tsx`). -/
def MIN_VIDEO_READY_STATE : ℕ := 2

/-- Embeds `TRANSITION_MIDPOINT` (`Preview.tsx`). -/
def TRANSITION_MIDPOINT : ℚ := 1 / 2

/-- Embeds `CANVAS_BACKGROUND_COLOR` (`Preview.tsx`). -/
def CANVAS_BACKGROUND_COLOR : String := "#000000"

/-- Embeds `FADE_WHITE_COLOR` (`Preview.tsx`). -/
def FADE_WHITE_COLOR : String := "#ffffff"

/-- The part of an `HTMLVideoElement` the compositor reads. -/
structure VideoEl where
  id : String
  readyState : ℕ
  videoWidth : ℚ
  videoHeight : ℚ
deriving DecidableEq

/-- One canvas drawing operation; the compositor functions are modelled as
the sequence of operations they issue on the 2D context. -/
inductive CanvasOp where
  | setFillStyle (style : String)
  | fillRect (x y w h : ℚ)
  | setGlobalAlpha (alpha : ℚ)
  | drawImage (video : VideoEl) (x y w h : ℚ)
deriving DecidableEq

/-- Embeds `LetterboxDimensions` (`Preview/types`). -/
structure LetterboxDimensions where
  drawWidth : ℚ
  drawHeight : ℚ
  x : ℚ
  y : ℚ
deriving DecidableEq

/-- Embeds `calculateLetterbox` (`Preview/utils.ts`). -/
def calculateLetterbox (videoWidth videoHeight canvasWidth canvasHeight : ℚ) :
    LetterboxDimensions :=
  let videoAspect := videoWidth / videoHeight
  let canvasAspect := canvasWidth / canvasHeight
  if videoAspect > canvasAspect then
    { drawWidth := canvasWidth, drawHeight := canvasWidth / videoAspect,
      x := 0, y := (canvasHeight - canvasWidth / videoAspect) / 2 }
  else
    { drawWidth := canvasHeight * videoAspect, drawHeight := canvasHeight,
      x := (canvasWidth - canvasHeight * videoAspect) / 2, y := 0 }

/-- Embeds `isVideoReady` (`Preview/utils.ts`). -/
def isVideoReady (video : VideoEl) : Bool :=
  MIN_VIDEO_READY_STATE ≤ video.readyState

/-- Embeds `clearCanvas` (`Preview/utils.ts`) as its operation trace. -/
def clearCanvas (width height : ℚ) (color : String) : List CanvasOp :=
  [CanvasOp.setFillStyle color, CanvasOp.fillRect 0 0 width height]

/-- Embeds `drawVideoFrame` (`Preview/utils.ts`): nothing is drawn when
the video is not ready; `globalAlpha` is set and restored only when
`alpha < 1`. -/
def drawVideoFrame (canvasWidth canvasHeight : ℚ) (video : VideoEl) (alpha : ℚ) :
    List CanvasOp :=
  if !isVideoReady video then []
  else
    let lb := calculateLetterbox video.videoWidth video.videoHeight canvasWidth canvasHeight
    (if alpha < 1 then [CanvasOp.setGlobalAlpha alpha] else [])
      ++ [CanvasOp.drawImage video lb.x lb.y lb.drawWidth lb.drawHeight]
      ++ (if alpha < 1 then [CanvasOp.setGlobalAlpha 1] else [])

/-- Embeds `renderCrossfade` (`Preview/utils.ts`). -/
def renderCrossfade (canvasWidth canvasHeight : ℚ) (outgoingVideo incomingVideo : VideoEl)
    (progress : ℚ) : List CanvasOp :=
  drawVideoFrame canvasWidth canvasHeight outgoingVideo (1 - progress)
    ++ drawVideoFrame canvasWidth canvasHeight incomingVideo progress

/-- Embeds `renderFadeToBlack` (`Preview/utils.ts`). -/
def renderFadeToBlack (canvasWidth canvasHeight : ℚ) (outgoingVideo incomingVideo : VideoEl)
    (progress : ℚ) : List CanvasOp :=
  if progress < TRANSITION_MIDPOINT then
    drawVideoFrame canvasWidth canvasHeight outgoingVideo (1 - progress * 2)
  else
    drawVideoFrame canvasWidth canvasHeight incomingVideo ((progress - TRANSITION_MIDPOINT) * 2)

/-- Embeds `renderFadeToWhite` (`Preview/utils.ts`). -/
def renderFadeToWhite (canvasWidth canvasHeight : ℚ) (outgoingVideo incomingVideo : VideoEl)
    (progress : ℚ) : List CanvasOp :=
  if progress < TRANSITION_MIDPOINT then
    drawVideoFrame canvasWidth canvasHeight outgoingVideo 1
      ++ [CanvasOp.setFillStyle ("rgba(255, 255, 255, " ++ toString (progress * 2) ++ ")"),
          CanvasOp.fillRect 0 0 canvasWidth canvasHeight]
  else
    [CanvasOp.setFillStyle FADE_WHITE_COLOR,
     CanvasOp.fillRect 0 0 canvasWidth canvasHeight,
     CanvasOp.setGlobalAlpha ((progress - TRANSITION_MIDPOINT) * 2)]
      ++ drawVideoFrame canvasWidth canvasHeight incomingVideo 1
      ++ [CanvasOp.setGlobalAlpha 1]

/-- Embeds `renderTransition` (`Preview/utils.ts`): clears the canvas and
dispatches on the transition type; the `default` switch branch (reached
by the `none` variant) falls back to crossfade. -/
def renderTransition (canvasWidth canvasHeight : ℚ) (outgoingVideo incomingVideo : VideoEl)
    (transition : Transition) (progress : ℚ) : List CanvasOp :=
  clearCanvas canvasWidth canvasHeight CANVAS_BACKGROUND_COLOR
    ++ match transition.type with
       | TransitionType.crossfade =>
         renderCrossfade canvasWidth canvasHeight outgoingVideo incomingVideo progress
       | TransitionType.fadeToBlack =>
         renderFadeToBlack canvasWidth canvasHeight outgoingVideo incomingVideo progress
       | TransitionType.fadeToWhite =>
         renderFadeToWhite canvasWidth canvasHeight outgoingVideo incomingVideo progress
       | TransitionType.none =>
         renderCrossfade canvasWidth canvasHeight outgoingVideo incomingVideo progress

/-- Scenario clip A of the spec's worked example: trim window 0–4 s. -/
def clipA : Clip :=
  { id := "A", name := "A", trimStart := 0, trimEnd := 4 }

/-- Scenario clip B of the spec's worked example: trim window 0–6 s. -/
def clipB : Clip :=
  { id := "B", name := "B", trimStart := 0, trimEnd := 6 }

/-- Scenario transition of the spec's worked example: 2 s crossfade. -/
def crossfade2s : Transition :=
  { id := "t1", type := TransitionType.crossfade, duration := 2 }

/-- Clip collection of the worked example. -/
def scenarioClips : ClipMap := [("A", clipA), ("B", clipB)]

/-- Timeline of the worked example: A then B with the 2 s crossfade. -/
def scenarioTimeline : Timeline :=
  { clipIds := ["A", "B"],
    transitions := [(createTransitionKey "A" "B", crossfade2s)] }

/-- C5: on the worked-example timeline [ClipA trim 0-4, ClipB trim 0-6]
with a 2 s crossfade between them, the total duration is 4 + 6 - 2 = 8;
the resolver returns Single{A, relativeTime = 1} at t = 1, the transition
variant with progress 0.5 (outgoing A at relative time 3, incoming B at
relative time 1) at t = 3, and Single{B, relativeTime = 3} at t = 5. -/
theorem C5_scenario_resolution :
    getTimelineDuration scenarioTimeline scenarioClips = 8 ∧
    getClipAtTime scenarioTimeline scenarioClips 1 =
      TimelinePositionResult.single clipA 1 ∧
    getClipAtTime scenarioTimeline scenarioClips 3 =
      TimelinePositionResult.transition (clipA, 3) (clipB, 1) crossfade2s (1 / 2) ∧
    getClipAtTime scenarioTimeline scenarioClips 5 =
      TimelinePositionResult.single clipB 3 := by
  refine ⟨?_, ?_, ?_, ?_⟩
  · simp [getTimelineDuration, timelineDurationLoop, transitionOverlapAfter, scenarioTimeline, scenarioClips,
      clipsGet, assocGet, createTransitionKey, clipA, clipB, crossfade2s, getClipDuration,
      List.find?]
    norm_num
  · simp [getClipAtTime, positionScanLoop, calculateClipPositions, clipPositionsLoop, transitionOverlapAfter,
      scenarioTimeline, scenarioClips, clipsGet, assocGet, createTransitionKey,
      clipA, clipB, crossfade2s, getClipDuration, List.find?]
    norm_num
  · simp [getClipAtTime, positionScanLoop, calculateClipPositions, clipPositionsLoop, transitionOverlapAfter,
      scenarioTimeline, scenarioClips, clipsGet, assocGet, createTransitionKey,
      clipA, clipB, crossfade2s, getClipDuration, List.find?]
    norm_num
  · simp [getClipAtTime, positionScanLoop, calculateClipPositions, clipPositionsLoop, transitionOverlapAfter,
      scenarioTimeline, scenarioClips, clipsGet, assocGet, createTransitionKey,
      clipA, clipB, crossfade2s, getClipDuration, List.find?]
    norm_num

/-- Setting a key in the map model then reading it back yields the stored
value (JS `map.set(k, v); map.get(k) === v`). -/
theorem assocGet_assocSet_self {α : Type} (m : List (String × α)) (k : String) (v : α) :
    assocGet (assocSet m k v) k = some v := by
  induction m with
  | nil => simp [assocGet, assocSet, List.find?]
  | cons kv rest ih =>
    by_cases hk : kv.1 = k
    · simp [assocGet, assocSet, hk, List.find?]
    · simpa [assocGet, assocSet, hk, List.find?] using ih

/-- Timeline whose clip ids overlap as strings: ids `a`, `ab`, `c`, with a
transition keyed `ab_c` between the adjacent clips `ab` and `c`. -/
def overlapIdTimeline : Timeline :=
  { clipIds := ["a", "ab", "c"],
    transitions := [(createTransitionKey "ab" "c", crossfade2s)] }

/-- C10: `removeClipFromTimeline` purges transition entries by substring
match on the key, so removing clip `a` from the timeline `[a, ab, c]`
also deletes the transition keyed `ab_c`, whose two endpoints `ab` and
`c` are both different from `a`. -/
theorem C10_substring_purge_collateral :
    getTransitionBetween overlapIdTimeline "ab" "c" = some crossfade2s ∧
    "a" ≠ "ab" ∧ "a" ≠ "c" ∧
    removeClipFromTimeline overlapIdTimeline "a" =
      { clipIds := ["ab", "c"], transitions := [] } := by
  refine ⟨?_, by decide, by decide, ?_⟩
  · simp [getTransitionBetween, overlapIdTimeline, assocGet, createTransitionKey, List.find?]
  · decide

/-- C9: for a transition whose type is none of `crossfade`, `fadeToBlack`
and `fadeToWhite` (only the `none` variant of `TransitionType` remains),
`renderTransition` issues exactly the operation sequence of a crossfade at
the same progress: outgoing at alpha `1 - progress`, incoming at alpha
`progress`, over a cleared background. -/
theorem C9_unknown_type_renders_as_crossfade (canvasWidth canvasHeight : ℚ)
    (outgoingVideo incomingVideo : VideoEl) (transition : Transition) (progress : ℚ)
    (h1 : transition.type ≠ TransitionType.crossfade)
    (h2 : transition.type ≠ TransitionType.fadeToBlack)
    (h3 : transition.type ≠ TransitionType.fadeToWhite) :
    renderTransition canvasWidth canvasHeight outgoingVideo incomingVideo transition progress =
      renderTransition canvasWidth canvasHeight outgoingVideo incomingVideo
        { transition with type := TransitionType.crossfade } progress := by
  cases htype : transition.type <;> simp_all [renderTransition]

/-- Test video elements for the compositor claims. -/
def testOutgoingVideo : VideoEl := { id := "out", readyState := 4, videoWidth := 16, videoHeight := 9 }

/-- Test video elements for the compositor claims. -/
def testIncomingVideo : VideoEl := { id := "in", readyState := 4, videoWidth := 4, videoHeight := 3 }

/-- A transition left in the `none` state. -/
def noneTransition : Transition := { id := "t0", type := TransitionType.none, duration := 1 }

theorem C9_unknown_type_renders_as_crossfade_witness :
    renderTransition 1280 720 testOutgoingVideo testIncomingVideo noneTransition (1 / 2) =
      renderTransition 1280 720 testOutgoingVideo testIncomingVideo
        { noneTransition with type := TransitionType.crossfade } (1 / 2) :=
  C9_unknown_type_renders_as_crossfade 1280 720 testOutgoingVideo testIncomingVideo
    noneTransition (1 / 2) (by decide) (by decide) (by decide)

/-- C7: on a synchronizer tick whose logical clock resolves to a
transition, the incoming (secondary) decoder is reseeked to its expected
relative time exactly when the absolute drift exceeds the 0.15 s
threshold or the decoder is paused; a 0.3 s drift triggers a reseek and a
0.05 s drift on a playing decoder does not. -/
theorem C7_secondary_drift_correction (timeline : Timeline) (clips : ClipMap)
    (currentTime actualTime : ℚ) (paused : Bool)
    (outgoing incoming : Clip × ℚ) (transition : Transition) (progress : ℚ)
    (hres : getClipAtTime timeline clips currentTime =
      TimelinePositionResult.transition outgoing incoming transition progress) :
    ((syncSecondaryOnTick timeline clips currentTime actualTime paused).isSome ↔
      (|actualTime - incoming.2| > SYNC_DRIFT_THRESHOLD ∨ paused = true)) ∧
    (∀ x, syncSecondaryOnTick timeline clips currentTime actualTime paused = some x →
      x = incoming.2) ∧
    (|actualTime - incoming.2| = 3 / 10 →
      syncSecondaryOnTick timeline clips currentTime actualTime paused = some incoming.2) ∧
    (|actualTime - incoming.2| = 1 / 20 → paused = false →
      syncSecondaryOnTick timeline clips currentTime actualTime paused = Option.none) := by
  unfold syncSecondaryOnTick
  rw [hres]
  dsimp only
  refine ⟨?_, ?_, ?_, ?_⟩
  · split_ifs with hcond <;> simp [hcond]
  · intro x hx
    by_cases hcond : |actualTime - incoming.2| > SYNC_DRIFT_THRESHOLD ∨ paused = true
    · simp [hcond] at hx
      exact hx.symm
    · simp [hcond] at hx
  · intro hd
    have hcond : |actualTime - incoming.2| > SYNC_DRIFT_THRESHOLD ∨ paused = true := by
      left
      rw [hd]
      norm_num [SYNC_DRIFT_THRESHOLD]
    simp [hcond]
  · intro hd hp
    have hcond : ¬(|actualTime - incoming.2| > SYNC_DRIFT_THRESHOLD ∨ paused = true) := by
      rw [hd, hp]
      norm_num [SYNC_DRIFT_THRESHOLD]
    simp [hcond]

/-- The worked-example timeline resolves `t = 3` to the crossfade zone
(zone `[2, 4)`, progress one half). -/
theorem scenario_resolves_midTransition :
    getClipAtTime scenarioTimeline scenarioClips 3 =
      TimelinePositionResult.transition (clipA, 3) (clipB, 1) crossfade2s (1 / 2) := by
  simp [getClipAtTime, positionScanLoop, calculateClipPositions, clipPositionsLoop, transitionOverlapAfter,
    scenarioTimeline, scenarioClips, clipsGet, assocGet, createTransitionKey,
    clipA, clipB, crossfade2s, getClipDuration, List.find?]
  norm_num

theorem C7_secondary_drift_correction_witness :
    ((syncSecondaryOnTick scenarioTimeline scenarioClips 3 (13 / 10) false).isSome ↔
      (|(13 / 10 : ℚ) - 1| > SYNC_DRIFT_THRESHOLD ∨ false = true)) ∧
    (∀ x, syncSecondaryOnTick scenarioTimeline scenarioClips 3 (13 / 10) false = some x →
      x = 1) ∧
    (|(13 / 10 : ℚ) - 1| = 3 / 10 →
      syncSecondaryOnTick scenarioTimeline scenarioClips 3 (13 / 10) false = some 1) ∧
    (|(13 / 10 : ℚ) - 1| = 1 / 20 → false = false →
      syncSecondaryOnTick scenarioTimeline scenarioClips 3 (13 / 10) false = Option.none) :=
  C7_secondary_drift_correction scenarioTimeline scenarioClips 3 (13 / 10) false
    (clipA, 3) (clipB, 1) crossfade2s (1 / 2) scenario_resolves_midTransition

/-- C4: `getMaxTransitionDuration` is twice the shorter effective
duration, and for adjacent clips present in the store the `setTransition`
action stores a transition whose duration is the requested duration
clamped with `min` against that maximum — an over-long request is
clamped, never rejected, and the clip collection is untouched. -/
theorem C4_transition_duration_clamp :
    (∀ durA durB : ℚ, getMaxTransitionDuration durA durB = 2 * min durA durB) ∧
    (∀ (state : EditorState) (fromClipId toClipId : String) (fromClip toClip : Clip)
        (type : TransitionType) (requested : ℚ) (fromIndex : ℕ),
      clipsGet state.clips fromClipId = some fromClip →
      clipsGet state.clips toClipId = some toClip →
      jsIndexOf fromClipId state.timeline.clipIds = some fromIndex →
      jsIndexOf toClipId state.timeline.clipIds = some (fromIndex + 1) →
      ∃ state', storeSetTransition state fromClipId toClipId type (some requested) =
          Except.ok state' ∧
        getTransitionBetween state'.timeline fromClipId toClipId =
          some { id := "transition_" ++ fromClipId ++ "_" ++ toClipId, type := type,
                 duration := min requested
                   (getMaxTransitionDuration (getClipDuration fromClip)
                     (getClipDuration toClip)) } ∧
        state'.clips = state.clips) := by
  constructor
  · intro durA durB
    rw [getMaxTransitionDuration, mul_comm]
  · intro state fromClipId toClipId fromClip toClip type requested fromIndex hf ht hfi hti
    refine ⟨{ state with
        timeline := { state.timeline with
          transitions := assocSet state.timeline.transitions
            (createTransitionKey fromClipId toClipId)
            { id := "transition_" ++ fromClipId ++ "_" ++ toClipId, type := type,
              duration := min requested
                (getMaxTransitionDuration (getClipDuration fromClip)
                  (getClipDuration toClip)) } } }, ?_, ?_, rfl⟩
    · rw [storeSetTransition, hf, ht]
      dsimp only
      rw [setTransition, hfi, hti]
      simp [createTransition]
    · rw [getTransitionBetween]
      exact assocGet_assocSet_self ..

/-- Store state for the clamp witness: clips A and B, adjacent, with no
transition yet. -/
def witnessEditorState : EditorState :=
  { clips := scenarioClips,
    timeline := { clipIds := ["A", "B"], transitions := [] } }

theorem C4_transition_duration_clamp_witness :
    (∀ durA durB : ℚ, getMaxTransitionDuration durA durB = 2 * min durA durB) ∧
    (clipsGet witnessEditorState.clips "A" = some clipA ∧
      clipsGet witnessEditorState.clips "B" = some clipB ∧
      jsIndexOf "A" witnessEditorState.timeline.clipIds = some 0 ∧
      jsIndexOf "B" witnessEditorState.timeline.clipIds = some (0 + 1)) ∧
    (∃ state', storeSetTransition witnessEditorState "A" "B" TransitionType.crossfade
        (some 100) = Except.ok state' ∧
      getTransitionBetween state'.timeline "A" "B" =
        some { id := "transition_" ++ "A" ++ "_" ++ "B", type := TransitionType.crossfade,
               duration := min 100
                 (getMaxTransitionDuration (getClipDuration clipA) (getClipDuration clipB)) } ∧
      state'.clips = witnessEditorState.clips) :=
  ⟨C4_transition_duration_clamp.1,
   ⟨rfl, rfl, rfl, rfl⟩,
   C4_transition_duration_clamp.2 witnessEditorState "A" "B" clipA clipB
     TransitionType.crossfade 100 0 rfl rfl rfl rfl⟩

/-- `jsIndexOf` misses exactly when the element is absent. -/
theorem jsIndexOf_eq_none_iff (x : String) (l : List String) :
    jsIndexOf x l = Option.none ↔ x ∉ l := by
  induction l with
  | nil => simp [jsIndexOf]
  | cons y ys ih =>
    by_cases hy : y = x
    · simp [jsIndexOf, hy]
    · simp only [jsIndexOf, if_neg hy, Option.map_eq_none', ih, List.mem_cons]
      have hxy : ¬x = y := fun h => hy h.symm
      tauto

/-- A hit of `jsIndexOf` splits the list at the first occurrence. -/
theorem jsIndexOf_decomp (x : String) (l : List String) (i : ℕ)
    (h : jsIndexOf x l = some i) :
    ∃ u v, l = u ++ x :: v ∧ u.length = i := by
  induction l generalizing i with
  | nil => simp [jsIndexOf] at h
  | cons y ys ih =>
    by_cases hy : y = x
    · simp only [jsIndexOf, if_pos hy] at h
      obtain rfl : (0 : ℕ) = i := Option.some.inj h
      exact ⟨[], ys, by simp [hy], rfl⟩
    · simp only [jsIndexOf, if_neg hy] at h
      cases hj : jsIndexOf x ys with
      | none => rw [hj] at h; simp at h
      | some j =>
        rw [hj] at h
        simp only [Option.map_some', Option.some.injEq] at h
        obtain ⟨u, v, rfl, hu⟩ := ih j hj
        exact ⟨y :: u, v, rfl, by simp [hu, h]⟩

/-- Erasing at the split point drops exactly the split element. -/
theorem eraseIdx_append_cons {α : Type} (u : List α) (x : α) (v : List α) :
    (u ++ x :: v).eraseIdx u.length = u ++ v := by
  induction u with
  | nil => rfl
  | cons a u ih => simp [List.eraseIdx, ih]

/-- Inserting at the split point restores the split element. -/
theorem insertIdx_append_cons {α : Type} (u : List α) (x : α) (v : List α) :
    List.insertIdx u.length x (u ++ v) = u ++ x :: v := by
  induction u with
  | nil => rfl
  | cons a u ih => simp [List.insertIdx_succ_cons, ih]

/-- Three-clip timeline for the move-clip counterexample. -/
def threeClipTimeline : Timeline :=
  { clipIds := ["a", "b", "c"], transitions := [] }

/-- C6 counterexample: `moveClipInTimeline` does not clamp a negative
`newIndex` into `[0, length-1]`.  On `[a, b, c]`, moving `a` to index -1
yields `[b, a, c]` (JavaScript `splice` counts a negative start from the
end of the remaining array), while the claimed clamped behaviour — moving
`a` to index 0 — leaves `[a, b, c]`. -/
theorem C6_negative_index_not_clamped :
    moveClipInTimeline threeClipTimeline "a" (-1) =
      Except.ok { clipIds := ["b", "a", "c"], transitions := [] } ∧
    moveClipInTimeline threeClipTimeline "a" 0 =
      Except.ok { clipIds := ["a", "b", "c"], transitions := [] } ∧
    moveClipInTimeline threeClipTimeline "a" (-1) ≠
      moveClipInTimeline threeClipTimeline "a" 0 := by
  have h1 : moveClipInTimeline threeClipTimeline "a" (-1) =
      Except.ok { clipIds := ["b", "a", "c"], transitions := [] } := rfl
  have h2 : moveClipInTimeline threeClipTimeline "a" 0 =
      Except.ok { clipIds := ["a", "b", "c"], transitions := [] } := rfl
  refine ⟨h1, h2, ?_⟩
  rw [h1, h2]
  simp

/-- A nonnegative splice start can be pre-clamped to the list length
without changing the normalised index. -/
theorem spliceIndex_min_self (len : ℕ) (n : ℤ) (hn : 0 ≤ n) :
    spliceIndex len n = spliceIndex len (min n (len : ℤ)) := by
  unfold spliceIndex
  split_ifs <;> omega

/-- C6 (amended): for every `newIndex ≥ 0`, `moveClipInTimeline` behaves
as if the index were clamped into `[0, length-1]`; a present clip is
always moved without error; moving a clip to its current index leaves the
ordering unchanged while still purging every transition entry whose key
mentions the moved clip; a missing clip id fails with the not-found
error.  (A negative `newIndex` is instead interpreted relative to the end
of the remaining list, per JavaScript `splice` — see the
counterexample.) -/
theorem C6_moveClip_clamp_noop_notfound :
    (∀ (timeline : Timeline) (clipId : String) (newIndex : ℤ), 0 ≤ newIndex →
      moveClipInTimeline timeline clipId newIndex =
        moveClipInTimeline timeline clipId
          (min newIndex ((timeline.clipIds.length : ℤ) - 1))) ∧
    (∀ (timeline : Timeline) (clipId : String) (newIndex : ℤ), clipId ∈ timeline.clipIds →
      ∃ timeline', moveClipInTimeline timeline clipId newIndex = Except.ok timeline') ∧
    (∀ (timeline : Timeline) (clipId : String) (currentIndex : ℕ),
      jsIndexOf clipId timeline.clipIds = some currentIndex →
      moveClipInTimeline timeline clipId (currentIndex : ℤ) =
        Except.ok
          { clipIds := timeline.clipIds,
            transitions := timeline.transitions.filter
              (fun kv => !jsIncludes kv.1 clipId) }) ∧
    (∀ (timeline : Timeline) (clipId : String) (newIndex : ℤ), clipId ∉ timeline.clipIds →
      moveClipInTimeline timeline clipId newIndex =
        Except.error ("Clip " ++ clipId ++ " not found in timeline")) := by
  refine ⟨?_, ?_, ?_, ?_⟩
  · intro timeline clipId newIndex hn
    cases h : jsIndexOf clipId timeline.clipIds with
    | none => simp [moveClipInTimeline, h]
    | some i =>
      obtain ⟨u, v, hl, hu⟩ := jsIndexOf_decomp _ _ _ h
      simp only [moveClipInTimeline, h]
      have hL : ((timeline.clipIds.eraseIdx i).length : ℤ) =
          (timeline.clipIds.length : ℤ) - 1 := by
        rw [hl, ← hu, eraseIdx_append_cons]
        simp
        omega
      rw [← hL, spliceIndex_min_self _ _ hn]
  · intro timeline clipId newIndex hmem
    cases h : jsIndexOf clipId timeline.clipIds with
    | none => exact absurd ((jsIndexOf_eq_none_iff ..).mp h) (by simp [hmem])
    | some i =>
      exact ⟨Timeline.mk
          (List.insertIdx (spliceIndex (timeline.clipIds.eraseIdx i).length newIndex)
            clipId (timeline.clipIds.eraseIdx i))
          (timeline.transitions.filter (fun kv => !jsIncludes kv.1 clipId)),
        by simp [moveClipInTimeline, h]⟩
  · intro timeline clipId currentIndex h
    obtain ⟨u, v, hl, hu⟩ := jsIndexOf_decomp _ _ _ h
    subst hu
    simp only [moveClipInTimeline, h]
    have herase : timeline.clipIds.eraseIdx u.length = u ++ v := by
      rw [hl, eraseIdx_append_cons]
    have hidx : spliceIndex (timeline.clipIds.eraseIdx u.length).length
        ((u.length : ℕ) : ℤ) = u.length := by
      rw [herase]
      unfold spliceIndex
      simp only [List.length_append]
      split_ifs <;> omega
    rw [hidx, herase, insertIdx_append_cons, ← hl]
  · intro timeline clipId newIndex hmem
    have h := (jsIndexOf_eq_none_iff clipId timeline.clipIds).mpr hmem
    simp [moveClipInTimeline, h]

theorem C6_moveClip_clamp_noop_notfound_witness :
    (moveClipInTimeline threeClipTimeline "b" 5 =
      moveClipInTimeline threeClipTimeline "b"
        (min 5 ((threeClipTimeline.clipIds.length : ℤ) - 1))) ∧
    (∃ timeline', moveClipInTimeline threeClipTimeline "b" 5 = Except.ok timeline') ∧
    (moveClipInTimeline threeClipTimeline "b" ((1 : ℕ) : ℤ) =
      Except.ok
        { clipIds := threeClipTimeline.clipIds,
          transitions := threeClipTimeline.transitions.filter
            (fun kv => !jsIncludes kv.1 "b") }) ∧
    (moveClipInTimeline threeClipTimeline "z" 0 =
      Except.error ("Clip " ++ "z" ++ " not found in timeline")) :=
  ⟨C6_moveClip_clamp_noop_notfound.1 threeClipTimeline "b" 5 (by norm_num),
   C6_moveClip_clamp_noop_notfound.2.1 threeClipTimeline "b" 5 (by decide),
   C6_moveClip_clamp_noop_notfound.2.2.1 threeClipTimeline "b" 1 rfl,
   C6_moveClip_clamp_noop_notfound.2.2.2 threeClipTimeline "z" 0 (by decide)⟩

/-- The duration fold from an arbitrary accumulator shifts by it. -/
theorem exportTotalDuration_foldl (clips : List Clip) (p : ℚ) :
    clips.foldl (fun sum clip => sum + getClipDuration clip) p =
      p + exportTotalDuration clips := by
  induction clips generalizing p with
  | nil => simp [exportTotalDuration]
  | cons c cs ih =>
    rw [exportTotalDuration, List.foldl_cons, List.foldl_cons, ih, ih (0 + getClipDuration c)]
    ring

/-- Splitting off the head clip of the export duration fold. -/
theorem exportTotalDuration_cons (c : Clip) (cs : List Clip) :
    exportTotalDuration (c :: cs) = getClipDuration c + exportTotalDuration cs := by
  rw [exportTotalDuration, List.foldl_cons, exportTotalDuration_foldl]
  ring

/-- The per-clip export loop emits one report per clip. -/
theorem exportProgressLoop_length (totalClips : ℕ) (totalDuration : ℚ) :
    ∀ (cs : List Clip) (i : ℕ) (p : ℚ),
      (exportProgressLoop totalClips totalDuration cs i p).length = cs.length := by
  intro cs
  induction cs with
  | nil => intro i p; rfl
  | cons c rest ih => intro i p; simp [exportProgressLoop, ih]

/-- Shape of the `j`-th report of the per-clip export loop. -/
theorem exportProgressLoop_get? (totalClips : ℕ) (totalDuration : ℚ) :
    ∀ (cs : List Clip) (i : ℕ) (p : ℚ) (j : ℕ) (clip : Clip), cs.get? j = some clip →
      (exportProgressLoop totalClips totalDuration cs i p).get? j = some
        { current := i + j, total := totalClips,
          percentage := (p + exportTotalDuration (cs.take j)) / totalDuration * 100,
          message := "Processing clip " ++ toString (i + j + 1) ++ " of "
            ++ toString totalClips ++ ": " ++ clip.name } := by
  intro cs
  induction cs with
  | nil => intro i p j clip hj; simp at hj
  | cons c rest ih =>
    intro i p j clip hj
    cases j with
    | zero =>
      simp only [List.get?] at hj
      obtain rfl := Option.some.inj hj
      simp [exportProgressLoop, exportTotalDuration]
    | succ j =>
      simp only [List.get?] at hj
      rw [exportProgressLoop]
      simp only [List.get?]
      rw [ih (i + 1) (p + getClipDuration c) j clip hj]
      have harith : p + getClipDuration c + exportTotalDuration (rest.take j) =
          p + exportTotalDuration ((c :: rest).take (j + 1)) := by
        rw [List.take_succ_cons, exportTotalDuration_cons]
        ring
      rw [harith]
      have hcur : i + 1 + j = i + (j + 1) := by omega
      rw [hcur]

/-- Appending keeps the left list's entries. -/
theorem get?_append_left {α : Type} :
    ∀ (l r : List α) (j : ℕ), j < l.length → (l ++ r).get? j = l.get? j := by
  intro l
  induction l with
  | nil => intro r j hj; simp at hj
  | cons a l ih =>
    intro r j hj
    cases j with
    | zero => rfl
    | succ j => exact ih r j (by simpa using hj)

/-- The entry just past the left list of an append with a singleton. -/
theorem get?_append_singleton {α : Type} :
    ∀ (l : List α) (x : α), (l ++ [x]).get? l.length = some x := by
  intro l
  induction l with
  | nil => intro x; rfl
  | cons a l ih => intro x; exact ih x

/-- C8: exporting a nonempty list of `N` clips emits `N + 1` progress
reports with `total = N`: after the first `j` clips complete, report `j`
carries `current = j` and `percentage` equal to the processed duration
fraction (sum of the first `j` effective durations over the total, times
100), and the final report is `current = N`, `percentage = 100`. -/
theorem C8_export_progress_shape (clips : List Clip) (h : clips ≠ []) :
    ∃ records, exportProgressReports clips = Except.ok records ∧
      records.length = clips.length + 1 ∧
      (∀ (j : ℕ) (clip : Clip), clips.get? j = some clip →
        records.get? j = some
          { current := j, total := clips.length,
            percentage := exportTotalDuration (clips.take j) /
              exportTotalDuration clips * 100,
            message := "Processing clip " ++ toString (j + 1) ++ " of "
              ++ toString clips.length ++ ": " ++ clip.name }) ∧
      records.get? clips.length = some
        { current := clips.length, total := clips.length, percentage := 100,
          message := "Export complete!" } := by
  refine ⟨exportProgressLoop clips.length (exportTotalDuration clips) clips 0 0 ++
      [{ current := clips.length, total := clips.length, percentage := 100,
         message := "Export complete!" }], ?_, ?_, ?_, ?_⟩
  · rw [exportProgressReports, if_neg h]
  · simp [exportProgressLoop_length]
  · intro j clip hj
    have hjlen : j < clips.length := by
      by_contra hge
      rw [List.get?_eq_none.mpr (by omega)] at hj
      exact Option.noConfusion hj
    rw [get?_append_left _ _ j (by rw [exportProgressLoop_length]; exact hjlen)]
    have := exportProgressLoop_get? clips.length (exportTotalDuration clips)
      clips 0 0 j clip hj
    rw [this]
    simp
  · have hlen : (exportProgressLoop clips.length (exportTotalDuration clips)
        clips 0 0).length = clips.length := exportProgressLoop_length ..
    have happ := get?_append_singleton
      (exportProgressLoop clips.length (exportTotalDuration clips) clips 0 0)
      { current := clips.length, total := clips.length, percentage := 100,
        message := "Export complete!" }
    rw [hlen] at happ
    exact happ

theorem C8_export_progress_shape_witness :
    ∃ records, exportProgressReports [clipA, clipB] = Except.ok records ∧
      records.length = [clipA, clipB].length + 1 ∧
      (∀ (j : ℕ) (clip : Clip), [clipA, clipB].get? j = some clip →
        records.get? j = some
          { current := j, total := [clipA, clipB].length,
            percentage := exportTotalDuration ([clipA, clipB].take j) /
              exportTotalDuration [clipA, clipB] * 100,
            message := "Processing clip " ++ toString (j + 1) ++ " of "
              ++ toString [clipA, clipB].length ++ ": " ++ clip.name }) ∧
      records.get? [clipA, clipB].length = some
        { current := [clipA, clipB].length, total := [clipA, clipB].length,
          percentage := 100, message := "Export complete!" } :=
  C8_export_progress_shape [clipA, clipB] (by simp)

/-- Two-clip timeline with one transition between the adjacent clips. -/
def twoClipTimeline (aId bId : String) (tr : Transition) : Timeline :=
  { clipIds := [aId, bId],
    transitions := [(createTransitionKey aId bId, tr)] }

/-- Clip collection holding the two clips of `twoClipTimeline`. -/
def twoClipMap (aId : String) (A : Clip) (bId : String) (B : Clip) : ClipMap :=
  [(aId, A), (bId, B)]

/-- Closed form of the position scan over two positioned clips joined by a
transition: the transition zone of the first clip is checked first, then
its plain containment, then the second clip's containment. -/
theorem positionScan_two (clips : ClipMap) (transitions : TransitionMap) (t : ℚ)
    (aId bId : String) (A B : Clip) (sA sB : ℚ) (tr : Transition)
    (hA : clipsGet clips aId = some A) (hB : clipsGet clips bId = some B)
    (htr : assocGet transitions (createTransitionKey aId bId) = some tr) :
    positionScanLoop clips transitions t [(aId, sA), (bId, sB)] =
      if sB ≤ t ∧ t < sA + getClipDuration A then
        TimelinePositionResult.transition (A, A.trimStart + (t - sA))
          (B, B.trimStart + (t - sB)) tr (min 1 (max 0 ((t - sB) / tr.duration)))
      else if sA ≤ t ∧ t < sA + getClipDuration A then
        TimelinePositionResult.single A (A.trimStart + (t - sA))
      else if sB ≤ t ∧ t < sB + getClipDuration B then
        TimelinePositionResult.single B (B.trimStart + (t - sB))
      else TimelinePositionResult.empty := by
  rw [positionScanLoop]
  rw [hA]
  dsimp only
  rw [hB, htr]
  dsimp only
  by_cases h1 : sB ≤ t ∧ t < sA + getClipDuration A
  · rw [if_pos h1, if_pos h1]
  · rw [if_neg h1, if_neg h1]
    by_cases h2 : sA ≤ t ∧ t < sA + getClipDuration A
    · rw [if_pos h2, if_pos h2]
    · rw [if_neg h2, if_neg h2]
      rw [positionScanLoop]
      rw [hB]
      dsimp only
      by_cases h3 : sB ≤ t ∧ t < sB + getClipDuration B
      · rw [if_pos h3, if_pos h3]
      · rw [if_neg h3, if_neg h3]
        rw [positionScanLoop]

/-- Closed form of the resolver on a two-clip timeline with one
transition: clip A starts at 0, clip B at `durA - d`; the transition zone
`[durA - d, durA)` is checked first, then A's span, then B's span. -/
theorem twoClip_resolve (aId bId : String) (A B : Clip) (tr : Transition)
    (hne : aId ≠ bId) (t : ℚ) :
    getClipAtTime (twoClipTimeline aId bId tr) (twoClipMap aId A bId B) t =
      if getClipDuration A - tr.duration ≤ t ∧ t < 0 + getClipDuration A then
        TimelinePositionResult.transition (A, A.trimStart + (t - 0))
          (B, B.trimStart + (t - (getClipDuration A - tr.duration))) tr
          (min 1 (max 0 ((t - (getClipDuration A - tr.duration)) / tr.duration)))
      else if 0 ≤ t ∧ t < 0 + getClipDuration A then
        TimelinePositionResult.single A (A.trimStart + (t - 0))
      else if getClipDuration A - tr.duration ≤ t ∧
          t < getClipDuration A - tr.duration + getClipDuration B then
        TimelinePositionResult.single B
          (B.trimStart + (t - (getClipDuration A - tr.duration)))
      else TimelinePositionResult.empty := by
  have hA : clipsGet (twoClipMap aId A bId B) aId = some A := by
    simp [twoClipMap, clipsGet, assocGet, List.find?]
  have hB : clipsGet (twoClipMap aId A bId B) bId = some B := by
    simp [twoClipMap, clipsGet, assocGet, List.find?, hne]
  have htr : assocGet (twoClipTimeline aId bId tr).transitions
      (createTransitionKey aId bId) = some tr := by
    simp [twoClipTimeline, assocGet, List.find?]
  have htrLit : assocGet [(createTransitionKey aId bId, tr)]
      (createTransitionKey aId bId) = some tr := by
    simp [assocGet, List.find?]
  have hpos : calculateClipPositions (twoClipTimeline aId bId tr) (twoClipMap aId A bId B) =
      [(aId, 0), (bId, getClipDuration A - tr.duration)] := by
    simp [calculateClipPositions, clipPositionsLoop, transitionOverlapAfter, twoClipTimeline, hA, hB, htrLit]
  rw [getClipAtTime, if_neg (by simp [twoClipTimeline]), hpos]
  exact positionScan_two _ _ t aId bId A B 0 (getClipDuration A - tr.duration) tr hA hB htr

/-- C2: on a two-clip timeline A,B joined by one transition of positive
duration `d` satisfying the duration invariant (`d ≤ 2·min` of the
effective durations), the resolver returns the transition variant exactly
on `[B.startInTimeline, A.nominalEnd) = [durA - d, durA)` with progress
`(t - zoneStart)/d` (the clamp is the identity there), returns `Single A`
immediately below the zone and `Single B` from the zone end up to the
total duration with no gap, and the progress is nonnegative, below 1, and
strictly increasing across the zone. -/
theorem C2_single_transition_zone (aId bId : String) (A B : Clip) (tr : Transition)
    (hne : aId ≠ bId)
    (hAtrim : A.trimStart < A.trimEnd) (hBtrim : B.trimStart < B.trimEnd)
    (hdpos : 0 < tr.duration)
    (hinv : tr.duration ≤ 2 * min (getClipDuration A) (getClipDuration B)) :
    getTimelineDuration (twoClipTimeline aId bId tr) (twoClipMap aId A bId B) =
      getClipDuration A + getClipDuration B - tr.duration ∧
    (∀ t : ℚ, getClipDuration A - tr.duration ≤ t → t < getClipDuration A →
      getClipAtTime (twoClipTimeline aId bId tr) (twoClipMap aId A bId B) t =
        TimelinePositionResult.transition (A, A.trimStart + t)
          (B, B.trimStart + (t - (getClipDuration A - tr.duration))) tr
          ((t - (getClipDuration A - tr.duration)) / tr.duration)) ∧
    (∀ t : ℚ, (∃ outg inc trX p,
        getClipAtTime (twoClipTimeline aId bId tr) (twoClipMap aId A bId B) t =
          TimelinePositionResult.transition outg inc trX p) ↔
      (getClipDuration A - tr.duration ≤ t ∧ t < getClipDuration A)) ∧
    (∀ t : ℚ, 0 ≤ t → t < getClipDuration A - tr.duration →
      getClipAtTime (twoClipTimeline aId bId tr) (twoClipMap aId A bId B) t =
        TimelinePositionResult.single A (A.trimStart + t)) ∧
    (∀ t : ℚ, getClipDuration A ≤ t →
      t < getClipDuration A + getClipDuration B - tr.duration →
      getClipAtTime (twoClipTimeline aId bId tr) (twoClipMap aId A bId B) t =
        TimelinePositionResult.single B
          (B.trimStart + (t - (getClipDuration A - tr.duration)))) ∧
    (∀ t : ℚ, getClipDuration A - tr.duration ≤ t → t < getClipDuration A →
      0 ≤ (t - (getClipDuration A - tr.duration)) / tr.duration ∧
      (t - (getClipDuration A - tr.duration)) / tr.duration < 1) ∧
    (∀ (t1 t2 : ℚ) (o1 i1 : Clip × ℚ) (tr1 : Transition) (p1 : ℚ)
        (o2 i2 : Clip × ℚ) (tr2 : Transition) (p2 : ℚ),
      getClipDuration A - tr.duration ≤ t1 → t2 < getClipDuration A → t1 < t2 →
      getClipAtTime (twoClipTimeline aId bId tr) (twoClipMap aId A bId B) t1 =
        TimelinePositionResult.transition o1 i1 tr1 p1 →
      getClipAtTime (twoClipTimeline aId bId tr) (twoClipMap aId A bId B) t2 =
        TimelinePositionResult.transition o2 i2 tr2 p2 →
      p1 < p2) := by
  have hA : clipsGet (twoClipMap aId A bId B) aId = some A := by
    simp [twoClipMap, clipsGet, assocGet, List.find?]
  have hB : clipsGet (twoClipMap aId A bId B) bId = some B := by
    simp [twoClipMap, clipsGet, assocGet, List.find?, hne]
  have htrLit : assocGet [(createTransitionKey aId bId, tr)]
      (createTransitionKey aId bId) = some tr := by
    simp [assocGet, List.find?]
  have hminA := min_le_left (getClipDuration A) (getClipDuration B)
  have hminB := min_le_right (getClipDuration A) (getClipDuration B)
  have hres := twoClip_resolve aId bId A B tr hne
  have hzone : ∀ t : ℚ, getClipDuration A - tr.duration ≤ t → t < getClipDuration A →
      getClipAtTime (twoClipTimeline aId bId tr) (twoClipMap aId A bId B) t =
        TimelinePositionResult.transition (A, A.trimStart + t)
          (B, B.trimStart + (t - (getClipDuration A - tr.duration))) tr
          ((t - (getClipDuration A - tr.duration)) / tr.duration) := by
    intro t hlo hhi
    rw [hres t, if_pos ⟨hlo, by linarith⟩]
    have hclamp : min 1 (max 0 ((t - (getClipDuration A - tr.duration)) / tr.duration)) =
        (t - (getClipDuration A - tr.duration)) / tr.duration := by
      rw [max_eq_right (div_nonneg (by linarith) (le_of_lt hdpos))]
      rw [min_eq_right]
      rw [div_le_one hdpos]
      linarith
    rw [hclamp]
    norm_num
  refine ⟨?_, hzone, ?_, ?_, ?_, ?_, ?_⟩
  · rw [getTimelineDuration]
    have hloop : timelineDurationLoop (twoClipMap aId A bId B)
        (twoClipTimeline aId bId tr).transitions (twoClipTimeline aId bId tr).clipIds =
        getClipDuration A + getClipDuration B - tr.duration := by
      simp [timelineDurationLoop, transitionOverlapAfter, twoClipTimeline, hA, hB, htrLit]
      ring
    rw [hloop, max_eq_right (by linarith)]
  · intro t
    constructor
    · rintro ⟨outg, inc, trX, p, hp⟩
      rw [hres t] at hp
      by_cases h1 : getClipDuration A - tr.duration ≤ t ∧ t < 0 + getClipDuration A
      · exact ⟨h1.1, by linarith [h1.2]⟩
      · rw [if_neg h1] at hp
        by_cases h2 : (0 : ℚ) ≤ t ∧ t < 0 + getClipDuration A
        · rw [if_pos h2] at hp
          exact absurd hp (by simp)
        · rw [if_neg h2] at hp
          by_cases h3 : getClipDuration A - tr.duration ≤ t ∧
              t < getClipDuration A - tr.duration + getClipDuration B
          · rw [if_pos h3] at hp
            exact absurd hp (by simp)
          · rw [if_neg h3] at hp
            exact absurd hp (by simp)
    · rintro ⟨hlo, hhi⟩
      exact ⟨_, _, _, _, hzone t hlo hhi⟩
  · intro t h0 hhi
    rw [hres t, if_neg (by rintro ⟨hc, -⟩; linarith), if_pos ⟨h0, by linarith⟩]
    norm_num
  · intro t hlo hhi
    rw [hres t, if_neg (by rintro ⟨-, hc⟩; linarith),
      if_neg (by rintro ⟨-, hc⟩; linarith), if_pos ⟨by linarith, by linarith⟩]
  · intro t hlo hhi
    constructor
    · exact div_nonneg (by linarith) (le_of_lt hdpos)
    · rw [div_lt_one hdpos]
      linarith
  · intro t1 t2 o1 i1 tr1 p1 o2 i2 tr2 p2 hlo hhi hlt he1 he2
    rw [hzone t1 hlo (by linarith)] at he1
    rw [hzone t2 (by linarith) hhi] at he2
    have hp1 : p1 = (t1 - (getClipDuration A - tr.duration)) / tr.duration := by
      have := he1
      simp only [TimelinePositionResult.transition.injEq] at this
      exact this.2.2.2.symm
    have hp2 : p2 = (t2 - (getClipDuration A - tr.duration)) / tr.duration := by
      have := he2
      simp only [TimelinePositionResult.transition.injEq] at this
      exact this.2.2.2.symm
    rw [hp1, hp2]
    apply div_lt_div_of_pos_right ?_ hdpos
    linarith

theorem C2_single_transition_zone_witness :
    getTimelineDuration (twoClipTimeline "A" "B" crossfade2s) (twoClipMap "A" clipA "B" clipB) =
      getClipDuration clipA + getClipDuration clipB - crossfade2s.duration ∧
    (∀ t : ℚ, getClipDuration clipA - crossfade2s.duration ≤ t → t < getClipDuration clipA →
      getClipAtTime (twoClipTimeline "A" "B" crossfade2s) (twoClipMap "A" clipA "B" clipB) t =
        TimelinePositionResult.transition (clipA, clipA.trimStart + t)
          (clipB, clipB.trimStart + (t - (getClipDuration clipA - crossfade2s.duration)))
          crossfade2s
          ((t - (getClipDuration clipA - crossfade2s.duration)) / crossfade2s.duration)) ∧
    (∀ t : ℚ, (∃ outg inc trX p,
        getClipAtTime (twoClipTimeline "A" "B" crossfade2s) (twoClipMap "A" clipA "B" clipB) t =
          TimelinePositionResult.transition outg inc trX p) ↔
      (getClipDuration clipA - crossfade2s.duration ≤ t ∧ t < getClipDuration clipA)) ∧
    (∀ t : ℚ, 0 ≤ t → t < getClipDuration clipA - crossfade2s.duration →
      getClipAtTime (twoClipTimeline "A" "B" crossfade2s) (twoClipMap "A" clipA "B" clipB) t =
        TimelinePositionResult.single clipA (clipA.trimStart + t)) ∧
    (∀ t : ℚ, getClipDuration clipA ≤ t →
      t < getClipDuration clipA + getClipDuration clipB - crossfade2s.duration →
      getClipAtTime (twoClipTimeline "A" "B" crossfade2s) (twoClipMap "A" clipA "B" clipB) t =
        TimelinePositionResult.single clipB
          (clipB.trimStart + (t - (getClipDuration clipA - crossfade2s.duration)))) ∧
    (∀ t : ℚ, getClipDuration clipA - crossfade2s.duration ≤ t → t < getClipDuration clipA →
      0 ≤ (t - (getClipDuration clipA - crossfade2s.duration)) / crossfade2s.duration ∧
      (t - (getClipDuration clipA - crossfade2s.duration)) / crossfade2s.duration < 1) ∧
    (∀ (t1 t2 : ℚ) (o1 i1 : Clip × ℚ) (tr1 : Transition) (p1 : ℚ)
        (o2 i2 : Clip × ℚ) (tr2 : Transition) (p2 : ℚ),
      getClipDuration clipA - crossfade2s.duration ≤ t1 → t2 < getClipDuration clipA →
      t1 < t2 →
      getClipAtTime (twoClipTimeline "A" "B" crossfade2s) (twoClipMap "A" clipA "B" clipB) t1 =
        TimelinePositionResult.transition o1 i1 tr1 p1 →
      getClipAtTime (twoClipTimeline "A" "B" crossfade2s) (twoClipMap "A" clipA "B" clipB) t2 =
        TimelinePositionResult.transition o2 i2 tr2 p2 →
      p1 < p2) :=
  C2_single_transition_zone "A" "B" clipA clipB crossfade2s (by decide)
    (by norm_num [clipA]) (by norm_num [clipB]) (by norm_num [crossfade2s])
    (by norm_num [crossfade2s, getClipDuration, clipA, clipB])

/-- Empty map lookups miss. -/
theorem assocGet_nil {α : Type} (k : String) :
    assocGet ([] : List (String × α)) k = Option.none := rfl

/-- With no next clip or an empty transition map there is no overlap. -/
theorem transitionOverlapAfter_nil_trans (clipId : String) (rest : List String) :
    transitionOverlapAfter [] clipId rest = 0 := by
  cases rest with
  | nil => rfl
  | cons nxt r => rfl

/-- With an empty transition map the duration walk adds exactly the
resolvable clips' durations. -/
theorem timelineDurationLoop_noTrans_cons (clips : ClipMap) (id : String)
    (rest : List String) :
    timelineDurationLoop clips [] (id :: rest) =
      match clipsGet clips id with
      | Option.none => timelineDurationLoop clips [] rest
      | some c => getClipDuration c + timelineDurationLoop clips [] rest := by
  rw [timelineDurationLoop]
  cases clipsGet clips id with
  | none => rfl
  | some c =>
    dsimp only
    rw [transitionOverlapAfter_nil_trans]
    ring

/-- With an empty transition map the position walk advances by each
resolvable clip's duration. -/
theorem clipPositionsLoop_noTrans_cons (clips : ClipMap) (id : String)
    (rest : List String) (s : ℚ) :
    clipPositionsLoop clips [] (id :: rest) s =
      match clipsGet clips id with
      | Option.none => clipPositionsLoop clips [] rest s
      | some c => (id, s) :: clipPositionsLoop clips [] rest (s + getClipDuration c) := by
  rw [clipPositionsLoop]
  cases clipsGet clips id with
  | none => rfl
  | some c =>
    dsimp only
    rw [transitionOverlapAfter_nil_trans]
    norm_num

/-- With an empty transition map the scan never takes the transition
branch: each positioned clip is tested for plain containment only. -/
theorem positionScanLoop_noTrans_cons (clips : ClipMap) (t : ℚ) (id : String) (s : ℚ)
    (posRest : List (String × ℚ)) :
    positionScanLoop clips [] t ((id, s) :: posRest) =
      match clipsGet clips id with
      | Option.none => positionScanLoop clips [] t posRest
      | some c =>
        if s ≤ t ∧ t < s + getClipDuration c then
          TimelinePositionResult.single c (c.trimStart + (t - s))
        else positionScanLoop clips [] t posRest := by
  rw [positionScanLoop]
  cases clipsGet clips id with
  | none => rfl
  | some c =>
    dsimp only
    cases posRest with
    | nil => rfl
    | cons p ps =>
      obtain ⟨nid, ns⟩ := p
      dsimp only
      rw [assocGet_nil]
      cases clipsGet clips nid
      · rfl
      · rfl

/-- Resolvable-head special case of the duration walk step. -/
theorem timelineDurationLoop_noTrans_some (clips : ClipMap) (id : String)
    (rest : List String) (c : Clip) (hc : clipsGet clips id = some c) :
    timelineDurationLoop clips [] (id :: rest) =
      getClipDuration c + timelineDurationLoop clips [] rest := by
  rw [timelineDurationLoop_noTrans_cons, hc]

/-- Resolvable-head special case of the position walk step. -/
theorem clipPositionsLoop_noTrans_some (clips : ClipMap) (id : String)
    (rest : List String) (s : ℚ) (c : Clip) (hc : clipsGet clips id = some c) :
    clipPositionsLoop clips [] (id :: rest) s =
      (id, s) :: clipPositionsLoop clips [] rest (s + getClipDuration c) := by
  rw [clipPositionsLoop_noTrans_cons, hc]

/-- Resolvable-head special case of the scan step. -/
theorem positionScanLoop_noTrans_some (clips : ClipMap) (t : ℚ) (id : String) (s : ℚ)
    (posRest : List (String × ℚ)) (c : Clip) (hc : clipsGet clips id = some c) :
    positionScanLoop clips [] t ((id, s) :: posRest) =
      if s ≤ t ∧ t < s + getClipDuration c then
        TimelinePositionResult.single c (c.trimStart + (t - s))
      else positionScanLoop clips [] t posRest := by
  rw [positionScanLoop_noTrans_cons, hc]

/-- With an empty transition map and fully resolvable, positive-duration
clips, the duration walk is nonnegative. -/
theorem timelineDurationLoop_noTrans_nonneg (clips : ClipMap) :
    ∀ l : List String,
      (∀ id ∈ l, ∃ c, clipsGet clips id = some c ∧ 0 < getClipDuration c) →
      0 ≤ timelineDurationLoop clips [] l := by
  intro l
  induction l with
  | nil => intro _; rw [timelineDurationLoop]
  | cons id rest ih =>
    intro h
    obtain ⟨c, hc, hcpos⟩ := h id (by simp)
    rw [timelineDurationLoop_noTrans_some clips id rest c hc]
    have hrest := ih (fun i hi => h i (by simp [hi]))
    linarith

/-- On a transition-free timeline every instant inside the accumulated
duration resolves to a single clip with an in-window relative time. -/
theorem noTrans_resolve (clips : ClipMap) :
    ∀ (l : List String) (s t : ℚ),
      (∀ id ∈ l, ∃ c, clipsGet clips id = some c ∧ 0 < getClipDuration c) →
      s ≤ t → t < s + timelineDurationLoop clips [] l →
      ∃ c r, positionScanLoop clips [] t (clipPositionsLoop clips [] l s) =
          TimelinePositionResult.single c r ∧ c.trimStart ≤ r ∧ r < c.trimEnd := by
  intro l
  induction l with
  | nil =>
    intro s t _ hs ht
    rw [timelineDurationLoop] at ht
    linarith
  | cons id rest ih =>
    intro s t hgood hs ht
    obtain ⟨c, hc, hcpos⟩ := hgood id (by simp)
    have hgoodRest : ∀ i ∈ rest, ∃ cc, clipsGet clips i = some cc ∧ 0 < getClipDuration cc :=
      fun i hi => hgood i (by simp [hi])
    rw [timelineDurationLoop_noTrans_some clips id rest c hc] at ht
    rw [clipPositionsLoop_noTrans_some clips id rest s c hc]
    rw [positionScanLoop_noTrans_some clips t id s _ c hc]
    by_cases hcase : t < s + getClipDuration c
    · rw [if_pos ⟨hs, hcase⟩]
      refine ⟨c, c.trimStart + (t - s), rfl, by linarith, ?_⟩
      rw [getClipDuration] at hcase
      linarith
    · rw [if_neg (by rintro ⟨-, hcc⟩; exact hcase hcc)]
      exact ih (s + getClipDuration c) t hgoodRest (le_of_not_lt hcase) (by linarith)

/-- The half-open spans of a transition-free walk, from a start offset. -/
def noTransSpans (clips : ClipMap) (l : List String) (s : ℚ) : List (ℚ × ℚ) :=
  (clipPositionsLoop clips [] l s).filterMap
    (fun p => (clipsGet clips p.1).map (fun c => (p.2, p.2 + getClipDuration c)))

/-- Span walk: a resolvable head clip contributes `[s, s + dur)`. -/
theorem noTransSpans_cons (clips : ClipMap) (id : String) (l : List String) (s : ℚ)
    (c : Clip) (hc : clipsGet clips id = some c) :
    noTransSpans clips (id :: l) s =
      (s, s + getClipDuration c) :: noTransSpans clips l (s + getClipDuration c) := by
  rw [noTransSpans, noTransSpans]
  simp only [clipPositionsLoop_noTrans_cons, hc]
  rw [List.filterMap_cons]
  simp only [hc, Option.map_some']

/-- Every span of a transition-free walk lies within the walked range. -/
theorem noTransSpans_bounds (clips : ClipMap) :
    ∀ (l : List String) (s : ℚ),
      (∀ id ∈ l, ∃ c, clipsGet clips id = some c ∧ 0 < getClipDuration c) →
      ∀ (i : ℕ) (lo hi : ℚ), (noTransSpans clips l s).get? i = some (lo, hi) →
        s ≤ lo ∧ lo < hi ∧ hi ≤ s + timelineDurationLoop clips [] l := by
  intro l
  induction l with
  | nil =>
    intro s _ i lo hi hget
    simp [noTransSpans, clipPositionsLoop] at hget
  | cons id rest ih =>
    intro s hgood i lo hi hget
    obtain ⟨c, hc, hcpos⟩ := hgood id (by simp)
    have hgoodRest : ∀ j ∈ rest, ∃ cc, clipsGet clips j = some cc ∧ 0 < getClipDuration cc :=
      fun j hj => hgood j (by simp [hj])
    have hnn := timelineDurationLoop_noTrans_nonneg clips rest hgoodRest
    rw [noTransSpans_cons clips id rest s c hc] at hget
    rw [timelineDurationLoop_noTrans_some clips id rest c hc]
    cases i with
    | zero =>
      simp only [List.get?] at hget
      have hp : (s, s + getClipDuration c) = (lo, hi) := Option.some.inj hget
      obtain ⟨rfl, rfl⟩ : s = lo ∧ s + getClipDuration c = hi :=
        ⟨congrArg Prod.fst hp, congrArg Prod.snd hp⟩
      exact ⟨le_refl _, by linarith, by linarith⟩
    | succ i =>
      simp only [List.get?] at hget
      obtain ⟨h1, h2, h3⟩ := ih (s + getClipDuration c) hgoodRest i lo hi hget
      exact ⟨by linarith, h2, by linarith⟩

/-- The empty walk has no spans. -/
theorem noTransSpans_nil (clips : ClipMap) (s : ℚ) :
    noTransSpans clips [] s = [] := rfl

/-- The first span of a resolvable transition-free walk starts at the
walk's offset. -/
theorem noTransSpans_start (clips : ClipMap) (l : List String) (s : ℚ)
    (hgood : ∀ id ∈ l, ∃ c, clipsGet clips id = some c ∧ 0 < getClipDuration c)
    (p : ℚ × ℚ) (hp : (noTransSpans clips l s).get? 0 = some p) : p.1 = s := by
  cases l with
  | nil => simp [noTransSpans_nil] at hp
  | cons id rest =>
    obtain ⟨c, hc, -⟩ := hgood id (by simp)
    rw [noTransSpans_cons clips id rest s c hc] at hp
    simp only [List.get?] at hp
    rw [← Option.some.inj hp]

/-- Consecutive spans of a transition-free walk meet exactly. -/
theorem noTransSpans_chain (clips : ClipMap) :
    ∀ (l : List String) (s : ℚ),
      (∀ id ∈ l, ∃ c, clipsGet clips id = some c ∧ 0 < getClipDuration c) →
      ∀ (i : ℕ) (lo1 hi1 lo2 hi2 : ℚ),
        (noTransSpans clips l s).get? i = some (lo1, hi1) →
        (noTransSpans clips l s).get? (i + 1) = some (lo2, hi2) → hi1 = lo2 := by
  intro l
  induction l with
  | nil => intro s _ i lo1 hi1 lo2 hi2 h1 _; simp [noTransSpans_nil] at h1
  | cons id rest ih =>
    intro s hgood i lo1 hi1 lo2 hi2 h1 h2
    obtain ⟨c, hc, hcpos⟩ := hgood id (by simp)
    have hgoodRest : ∀ j ∈ rest, ∃ cc, clipsGet clips j = some cc ∧ 0 < getClipDuration cc :=
      fun j hj => hgood j (by simp [hj])
    rw [noTransSpans_cons clips id rest s c hc] at h1 h2
    cases i with
    | zero =>
      simp only [List.get?] at h1 h2
      have hp := Option.some.inj h1
      have hhi1 : hi1 = s + getClipDuration c := (congrArg Prod.snd hp).symm
      have hlo2 := noTransSpans_start clips rest (s + getClipDuration c) hgoodRest
        (lo2, hi2) h2
      rw [hhi1, ← hlo2]
    | succ i =>
      simp only [List.get?] at h1 h2
      exact ih (s + getClipDuration c) hgoodRest i lo1 hi1 lo2 hi2 h1 h2

/-- Every instant in the walked range is covered by some span. -/
theorem noTransSpans_cover (clips : ClipMap) :
    ∀ (l : List String) (s : ℚ),
      (∀ id ∈ l, ∃ c, clipsGet clips id = some c ∧ 0 < getClipDuration c) →
      ∀ t : ℚ, s ≤ t → t < s + timelineDurationLoop clips [] l →
      ∃ (i : ℕ) (lo hi : ℚ), (noTransSpans clips l s).get? i = some (lo, hi) ∧
        lo ≤ t ∧ t < hi := by
  intro l
  induction l with
  | nil =>
    intro s _ t hs ht
    rw [timelineDurationLoop] at ht
    linarith
  | cons id rest ih =>
    intro s hgood t hs ht
    obtain ⟨c, hc, hcpos⟩ := hgood id (by simp)
    have hgoodRest : ∀ j ∈ rest, ∃ cc, clipsGet clips j = some cc ∧ 0 < getClipDuration cc :=
      fun j hj => hgood j (by simp [hj])
    rw [timelineDurationLoop_noTrans_some clips id rest c hc] at ht
    rw [noTransSpans_cons clips id rest s c hc]
    by_cases hcase : t < s + getClipDuration c
    · exact ⟨0, s, s + getClipDuration c, rfl, hs, hcase⟩
    · obtain ⟨i, lo, hi, hg, hlo, hhi⟩ :=
        ih (s + getClipDuration c) hgoodRest t (le_of_not_lt hcase) (by linarith)
      exact ⟨i + 1, lo, hi, hg, hlo, hhi⟩

/-- The last span of a resolvable transition-free walk ends at the walked
range's end. -/
theorem noTransSpans_last (clips : ClipMap) :
    ∀ (l : List String) (s : ℚ),
      (∀ id ∈ l, ∃ c, clipsGet clips id = some c ∧ 0 < getClipDuration c) →
      ∀ p : ℚ × ℚ, (noTransSpans clips l s).getLast? = some p →
        p.2 = s + timelineDurationLoop clips [] l := by
  intro l
  induction l with
  | nil => intro s _ p hp; simp [noTransSpans_nil] at hp
  | cons id rest ih =>
    intro s hgood p hp
    obtain ⟨c, hc, hcpos⟩ := hgood id (by simp)
    have hgoodRest : ∀ j ∈ rest, ∃ cc, clipsGet clips j = some cc ∧ 0 < getClipDuration cc :=
      fun j hj => hgood j (by simp [hj])
    rw [noTransSpans_cons clips id rest s c hc] at hp
    rw [timelineDurationLoop_noTrans_some clips id rest c hc]
    cases rest with
    | nil =>
      rw [noTransSpans_nil] at hp
      have hx : ([(s, s + getClipDuration c)] : List (ℚ × ℚ)).getLast? =
          some (s, s + getClipDuration c) := rfl
      rw [hx] at hp
      have hpp := Option.some.inj hp
      rw [← hpp, timelineDurationLoop]
      norm_num
    | cons rid rs =>
      obtain ⟨cr, hcr, -⟩ := hgoodRest rid (by simp)
      rw [noTransSpans_cons clips rid rs (s + getClipDuration c) cr hcr] at hp
      rw [List.getLast?_cons_cons] at hp
      rw [← noTransSpans_cons clips rid rs (s + getClipDuration c) cr hcr] at hp
      have := ih (s + getClipDuration c) hgoodRest p hp
      rw [this]
      ring

/-- Spans of a transition-free walk are ordered: an earlier span ends no
later than a later span starts. -/
theorem noTransSpans_ordered (clips : ClipMap) :
    ∀ (l : List String) (s : ℚ),
      (∀ id ∈ l, ∃ c, clipsGet clips id = some c ∧ 0 < getClipDuration c) →
      ∀ (i j : ℕ) (lo1 hi1 lo2 hi2 : ℚ), i < j →
        (noTransSpans clips l s).get? i = some (lo1, hi1) →
        (noTransSpans clips l s).get? j = some (lo2, hi2) → hi1 ≤ lo2 := by
  intro l
  induction l with
  | nil => intro s _ i j lo1 hi1 lo2 hi2 _ h1 _; simp [noTransSpans_nil] at h1
  | cons id rest ih =>
    intro s hgood i j lo1 hi1 lo2 hi2 hij h1 h2
    obtain ⟨c, hc, hcpos⟩ := hgood id (by simp)
    have hgoodRest : ∀ k ∈ rest, ∃ cc, clipsGet clips k = some cc ∧ 0 < getClipDuration cc :=
      fun k hk => hgood k (by simp [hk])
    rw [noTransSpans_cons clips id rest s c hc] at h1 h2
    cases i with
    | zero =>
      cases j with
      | zero => omega
      | succ j =>
        simp only [List.get?] at h1 h2
        have hp := Option.some.inj h1
        have hhi1 : hi1 = s + getClipDuration c := (congrArg Prod.snd hp).symm
        obtain ⟨hb1, -, -⟩ := noTransSpans_bounds clips rest (s + getClipDuration c)
          hgoodRest j lo2 hi2 h2
        rw [hhi1]
        exact hb1
    | succ i =>
      cases j with
      | zero => omega
      | succ j =>
        simp only [List.get?] at h1 h2
        exact ih (s + getClipDuration c) hgoodRest i j lo1 hi1 lo2 hi2 (by omega) h1 h2

/-- C1: on a timeline with an empty transition map whose clip ids all
resolve to clips with valid trims, every `t` in `[0, totalDuration)`
resolves to the `single` variant with `relativeTime` in
`[trimStart, trimEnd)`, and the single-clip spans
`[startInTimeline, startInTimeline + effectiveDuration)` in sequence
order exactly tile `[0, totalDuration)`: consecutive spans meet exactly,
the first starts at 0 and the last ends at the total duration, every
instant of the range lies in a span and in only one. -/
theorem C1_noTransition_single_and_tiling (tl : Timeline) (clips : ClipMap)
    (hT : tl.transitions = [])
    (hR : ∀ id ∈ tl.clipIds, ∃ c, clipsGet clips id = some c)
    (hV : ∀ id c, id ∈ tl.clipIds → clipsGet clips id = some c →
      c.trimStart < c.trimEnd) :
    (∀ t : ℚ, 0 ≤ t → t < getTimelineDuration tl clips →
      ∃ c r, getClipAtTime tl clips t = TimelinePositionResult.single c r ∧
        c.trimStart ≤ r ∧ r < c.trimEnd) ∧
    (∀ (i : ℕ) (lo1 hi1 lo2 hi2 : ℚ),
      (clipSpans tl clips).get? i = some (lo1, hi1) →
      (clipSpans tl clips).get? (i + 1) = some (lo2, hi2) → hi1 = lo2) ∧
    (∀ p : ℚ × ℚ, (clipSpans tl clips).get? 0 = some p → p.1 = 0) ∧
    (∀ p : ℚ × ℚ, (clipSpans tl clips).getLast? = some p →
      p.2 = getTimelineDuration tl clips) ∧
    (∀ t : ℚ, (0 ≤ t ∧ t < getTimelineDuration tl clips) ↔
      ∃ (i : ℕ) (lo hi : ℚ), (clipSpans tl clips).get? i = some (lo, hi) ∧
        lo ≤ t ∧ t < hi) ∧
    (∀ (t : ℚ) (i j : ℕ) (lo1 hi1 lo2 hi2 : ℚ),
      (clipSpans tl clips).get? i = some (lo1, hi1) →
      (clipSpans tl clips).get? j = some (lo2, hi2) →
      lo1 ≤ t → t < hi1 → lo2 ≤ t → t < hi2 → i = j) := by
  have hgood : ∀ id ∈ tl.clipIds, ∃ c, clipsGet clips id = some c ∧
      0 < getClipDuration c := by
    intro id hid
    obtain ⟨c, hc⟩ := hR id hid
    refine ⟨c, hc, ?_⟩
    have := hV id c hid hc
    rw [getClipDuration]
    linarith
  have hnn := timelineDurationLoop_noTrans_nonneg clips tl.clipIds hgood
  have hD : getTimelineDuration tl clips = timelineDurationLoop clips [] tl.clipIds := by
    rw [getTimelineDuration, hT, max_eq_right hnn]
  have hspans : clipSpans tl clips = noTransSpans clips tl.clipIds 0 := by
    rw [clipSpans, noTransSpans, calculateClipPositions, hT]
  refine ⟨?_, ?_, ?_, ?_, ?_, ?_⟩
  · intro t h0 hlt
    rw [hD] at hlt
    rw [getClipAtTime]
    by_cases hnil : tl.clipIds = []
    · rw [hnil, timelineDurationLoop] at hlt
      linarith
    · rw [if_neg hnil, calculateClipPositions, hT]
      exact noTrans_resolve clips tl.clipIds 0 t hgood h0 (by linarith)
  · intro i lo1 hi1 lo2 hi2 h1 h2
    rw [hspans] at h1 h2
    exact noTransSpans_chain clips tl.clipIds 0 hgood i lo1 hi1 lo2 hi2 h1 h2
  · intro p hp
    rw [hspans] at hp
    exact noTransSpans_start clips tl.clipIds 0 hgood p hp
  · intro p hp
    rw [hspans] at hp
    have := noTransSpans_last clips tl.clipIds 0 hgood p hp
    rw [hD]
    linarith
  · intro t
    constructor
    · rintro ⟨h0, hlt⟩
      rw [hD] at hlt
      rw [hspans]
      exact noTransSpans_cover clips tl.clipIds 0 hgood t h0 (by linarith)
    · rintro ⟨i, lo, hi, hg, hlo, hhi⟩
      rw [hspans] at hg
      obtain ⟨hb1, hb2, hb3⟩ := noTransSpans_bounds clips tl.clipIds 0 hgood i lo hi hg
      rw [hD]
      constructor <;> linarith
  · intro t i j lo1 hi1 lo2 hi2 h1 h2 hl1 hh1 hl2 hh2
    rw [hspans] at h1 h2
    rcases lt_trichotomy i j with hij | hij | hij
    · have := noTransSpans_ordered clips tl.clipIds 0 hgood i j lo1 hi1 lo2 hi2 hij h1 h2
      linarith
    · exact hij
    · have := noTransSpans_ordered clips tl.clipIds 0 hgood j i lo2 hi2 lo1 hi1 hij h2 h1
      linarith

/-- Transition-free two-clip timeline for the tiling witness. -/
def noTransTimeline : Timeline := { clipIds := ["A", "B"], transitions := [] }

theorem C1_noTransition_single_and_tiling_witness :
    (∀ t : ℚ, 0 ≤ t → t < getTimelineDuration noTransTimeline scenarioClips →
      ∃ c r, getClipAtTime noTransTimeline scenarioClips t =
          TimelinePositionResult.single c r ∧
        c.trimStart ≤ r ∧ r < c.trimEnd) ∧
    (∀ (i : ℕ) (lo1 hi1 lo2 hi2 : ℚ),
      (clipSpans noTransTimeline scenarioClips).get? i = some (lo1, hi1) →
      (clipSpans noTransTimeline scenarioClips).get? (i + 1) = some (lo2, hi2) →
      hi1 = lo2) ∧
    (∀ p : ℚ × ℚ, (clipSpans noTransTimeline scenarioClips).get? 0 = some p →
      p.1 = 0) ∧
    (∀ p : ℚ × ℚ, (clipSpans noTransTimeline scenarioClips).getLast? = some p →
      p.2 = getTimelineDuration noTransTimeline scenarioClips) ∧
    (∀ t : ℚ, (0 ≤ t ∧ t < getTimelineDuration noTransTimeline scenarioClips) ↔
      ∃ (i : ℕ) (lo hi : ℚ),
        (clipSpans noTransTimeline scenarioClips).get? i = some (lo, hi) ∧
        lo ≤ t ∧ t < hi) ∧
    (∀ (t : ℚ) (i j : ℕ) (lo1 hi1 lo2 hi2 : ℚ),
      (clipSpans noTransTimeline scenarioClips).get? i = some (lo1, hi1) →
      (clipSpans noTransTimeline scenarioClips).get? j = some (lo2, hi2) →
      lo1 ≤ t → t < hi1 → lo2 ≤ t → t < hi2 → i = j) :=
  C1_noTransition_single_and_tiling noTransTimeline scenarioClips rfl
    (by
      intro id hid
      simp only [noTransTimeline, List.mem_cons, List.mem_singleton] at hid
      rcases hid with rfl | hid
      · exact ⟨clipA, rfl⟩
      · rcases hid with rfl | hid
        · exact ⟨clipB, rfl⟩
        · simp at hid)
    (by
      intro id c hid hc
      simp only [noTransTimeline, List.mem_cons, List.mem_singleton] at hid
      rcases hid with rfl | hid
      · obtain rfl : clipA = c := Option.some.inj hc
        norm_num [clipA]
      · rcases hid with rfl | hid
        · obtain rfl : clipB = c := Option.some.inj hc
          norm_num [clipB]
        · simp at hid)

/-- One editor mutation, as dispatched by the store actions; the throwing
operations fall back to the unchanged timeline when they fail (in the
source the exception aborts the state update, leaving the state as it
was). -/
inductive EditOp where
  | add (clipId : String)
  | remove (clipId : String)
  | move (clipId : String) (newIndex : ℤ)
  | setTrans (fromClipId toClipId : String) (transition : Transition)
  | removeTrans (fromClipId toClipId : String)

/-- Applies one mutation to a timeline. -/
def applyOp (tl : Timeline) : EditOp → Timeline
  | EditOp.add c => addClipToTimeline tl c
  | EditOp.remove c => removeClipFromTimeline tl c
  | EditOp.move c i =>
    match moveClipInTimeline tl c i with
    | Except.ok tl2 => tl2
    | Except.error _ => tl
  | EditOp.setTrans f t tr =>
    match setTransition tl f t tr with
    | Except.ok tl2 => tl2
    | Except.error _ => tl
  | EditOp.removeTrans f t => removeTransition tl f t

/-- Applies a sequence of mutations from left to right. -/
def applyOps (tl : Timeline) (ops : List EditOp) : Timeline :=
  ops.foldl applyOp tl

/-- `f` is immediately followed by `t` in the sequence. -/
def areAdjacent (l : List String) (f t : String) : Prop :=
  ∃ u v, l = u ++ f :: t :: v

/-- The claimed invariant: every transition key is the key of an adjacent
ordered clip pair of the sequence. -/
def transitionKeysAdjacent (tl : Timeline) : Prop :=
  ∀ kv ∈ tl.transitions, ∃ f t, kv.1 = createTransitionKey f t ∧
    areAdjacent tl.clipIds f t

/-- Membership after a map `set`: the new binding or an old entry. -/
theorem mem_assocSet {α : Type} :
    ∀ (m : List (String × α)) (k : String) (v : α) (kv : String × α),
      kv ∈ assocSet m k v → kv = (k, v) ∨ kv ∈ m := by
  intro m k v kv
  induction m with
  | nil => intro h; simp [assocSet] at h; simp [h]
  | cons kv0 rest ih =>
    intro h
    rw [assocSet] at h
    by_cases h0 : kv0.1 = k
    · rw [if_pos h0] at h
      rcases List.mem_cons.mp h with h1 | h1
      · exact Or.inl h1
      · exact Or.inr (List.mem_cons_of_mem _ h1)
    · rw [if_neg h0] at h
      rcases List.mem_cons.mp h with h1 | h1
      · exact Or.inr (h1 ▸ List.mem_cons_self ..)
      · rcases ih h1 with h2 | h2
        · exact Or.inl h2
        · exact Or.inr (List.mem_cons_of_mem _ h2)

/-- A transition key `f_t` contains `f` as a substring. -/
theorem jsIncludes_key_fst (f t : String) :
    jsIncludes (createTransitionKey f t) f = true := by
  rw [jsIncludes, createTransitionKey, decide_eq_true_eq]
  refine ⟨[], ("_" ++ t).data, ?_⟩
  rw [String.data_append, String.data_append]
  simp [String.data_append]

/-- A transition key `f_t` contains `t` as a substring. -/
theorem jsIncludes_key_snd (f t : String) :
    jsIncludes (createTransitionKey f t) t = true := by
  rw [jsIncludes, createTransitionKey, decide_eq_true_eq]
  refine ⟨(f ++ "_").data, [], ?_⟩
  rw [String.data_append, String.data_append, String.data_append]
  simp

/-- Element at the index right after a split point. -/
theorem get?_append_cons_succ {α : Type} :
    ∀ (u : List α) (x : α) (v : List α),
      (u ++ x :: v).get? (u.length + 1) = v.get? 0 := by
  intro u
  induction u with
  | nil => intro x v; rfl
  | cons a u ih => intro x v; exact ih x v

/-- Element at a split point. -/
theorem get?_append_cons_self {α : Type} :
    ∀ (u : List α) (x : α) (v : List α), (u ++ x :: v).get? u.length = some x := by
  intro u
  induction u with
  | nil => intro x v; rfl
  | cons a u ih => intro x v; exact ih x v

/-- Appending a clip preserves the adjacency invariant. -/
theorem transitionKeysAdjacent_add (tl : Timeline) (c : String)
    (h : transitionKeysAdjacent tl) :
    transitionKeysAdjacent (addClipToTimeline tl c) := by
  intro kv hkv
  obtain ⟨f, t, hk, u, v, hl⟩ := h kv hkv
  refine ⟨f, t, hk, u, v ++ [c], ?_⟩
  rw [addClipToTimeline]
  dsimp only
  rw [hl]
  simp

/-- Removing a clip preserves the adjacency invariant: surviving keys
mention neither endpoint equal to the removed id, and filtering preserves
the adjacency of two kept neighbours. -/
theorem transitionKeysAdjacent_remove (tl : Timeline) (c : String)
    (h : transitionKeysAdjacent tl) :
    transitionKeysAdjacent (removeClipFromTimeline tl c) := by
  intro kv hkv
  obtain ⟨hmem, hkeep⟩ := List.mem_filter.mp hkv
  obtain ⟨f, t, hk, u, v, hl⟩ := h kv hmem
  have hkeep' : jsIncludes kv.1 c = false := by
    cases hj : jsIncludes kv.1 c
    · rfl
    · rw [hj] at hkeep
      simp at hkeep
  have hf : f ≠ c := by
    intro heq
    rw [hk, heq] at hkeep'
    rw [jsIncludes_key_fst] at hkeep'
    exact Bool.noConfusion hkeep'
  have ht : t ≠ c := by
    intro heq
    rw [hk, heq] at hkeep'
    rw [jsIncludes_key_snd] at hkeep'
    exact Bool.noConfusion hkeep'
  refine ⟨f, t, hk, u.filter (fun i => i ≠ c), v.filter (fun i => i ≠ c), ?_⟩
  show tl.clipIds.filter (fun i => i ≠ c) = _
  rw [hl]
  simp [List.filter_append, List.filter_cons, hf, ht]

/-- Characterisation of a successful `setTransition`. -/
theorem setTransition_ok (tl : Timeline) (f t : String) (tr : Transition) (tl2 : Timeline)
    (h : setTransition tl f t tr = Except.ok tl2) :
    (∃ fi, jsIndexOf f tl.clipIds = some fi ∧
      jsIndexOf t tl.clipIds = some (fi + 1)) ∧
    tl2 = { tl with
      transitions := assocSet tl.transitions (createTransitionKey f t) tr } := by
  rw [setTransition] at h
  cases hfi : jsIndexOf f tl.clipIds with
  | none =>
    rw [hfi] at h
    cases hti : jsIndexOf t tl.clipIds <;> rw [hti] at h <;> exact Except.noConfusion h
  | some fi =>
    rw [hfi] at h
    cases hti : jsIndexOf t tl.clipIds with
    | none => rw [hti] at h; exact Except.noConfusion h
    | some ti =>
      rw [hti] at h
      dsimp only at h
      by_cases hadj : ti = fi + 1
      · rw [if_pos hadj] at h
        exact ⟨⟨fi, rfl, congrArg Option.some hadj⟩, (Except.ok.inj h).symm⟩
      · rw [if_neg hadj] at h
        exact Except.noConfusion h

/-- The `setTransition` operation preserves the adjacency invariant: a
successful set requires the two clips to be adjacent. -/
theorem transitionKeysAdjacent_setTrans (tl : Timeline) (f t : String) (tr : Transition)
    (h : transitionKeysAdjacent tl) :
    transitionKeysAdjacent (applyOp tl (EditOp.setTrans f t tr)) := by
  rw [applyOp]
  cases hset : setTransition tl f t tr with
  | error e => exact h
  | ok tl2 =>
    obtain ⟨⟨fi, hfi, hti⟩, rfl⟩ := setTransition_ok tl f t tr tl2 hset
    obtain ⟨u, v, hl, hu⟩ := jsIndexOf_decomp f tl.clipIds fi hfi
    obtain ⟨u2, v2, hl2, hu2⟩ := jsIndexOf_decomp t tl.clipIds (fi + 1) hti
    have hvt : v.get? 0 = some t := by
      have h1 : tl.clipIds.get? (u.length + 1) = v.get? 0 := by
        rw [hl, get?_append_cons_succ]
      have h2 : tl.clipIds.get? (u2.length) = some t := by
        rw [hl2, get?_append_cons_self]
      rw [hu] at h1
      rw [hu2] at h2
      rw [← h1, h2]
    have hadj : areAdjacent tl.clipIds f t := by
      cases v with
      | nil => exact Option.noConfusion hvt
      | cons a v3 =>
        have : a = t := Option.some.inj hvt
        exact ⟨u, v3, by rw [hl, this]⟩
    intro kv hkv
    rcases mem_assocSet tl.transitions (createTransitionKey f t) tr kv hkv with h1 | h1
    · exact ⟨f, t, by rw [h1], hadj⟩
    · exact h kv h1

/-- Deleting a transition preserves the adjacency invariant. -/
theorem transitionKeysAdjacent_removeTrans (tl : Timeline) (f t : String)
    (h : transitionKeysAdjacent tl) :
    transitionKeysAdjacent (removeTransition tl f t) := by
  intro kv hkv
  exact h kv (List.mem_filter.mp hkv).1

/-- The adjacency invariant is preserved by any sequence of non-move
mutations. -/
theorem transitionKeysAdjacent_applyOps :
    ∀ (ops : List EditOp) (tl : Timeline), transitionKeysAdjacent tl →
      (∀ op ∈ ops, ∀ (c : String) (i : ℤ), op ≠ EditOp.move c i) →
      transitionKeysAdjacent (applyOps tl ops) := by
  intro ops
  induction ops with
  | nil => intro tl h _; exact h
  | cons op ops ih =>
    intro tl h hnm
    rw [applyOps, List.foldl_cons]
    have hstep : transitionKeysAdjacent (applyOp tl op) := by
      cases op with
      | add c => exact transitionKeysAdjacent_add tl c h
      | remove c => exact transitionKeysAdjacent_remove tl c h
      | move c i => exact absurd rfl (hnm (EditOp.move c i) (by simp) c i)
      | setTrans f t tr => exact transitionKeysAdjacent_setTrans tl f t tr h
      | removeTrans f t => exact transitionKeysAdjacent_removeTrans tl f t h
    exact ih (applyOp tl op) hstep (fun o ho c i => hnm o (by simp [ho]) c i)

/-- C3 (amended): starting from the empty timeline, any sequence of
`addClip`, `removeClip`, `setTransition` and `removeTransition`
(no `moveClip`) preserves the invariant that every transition key is the
key of an ordered pair of currently adjacent clips; in particular
removing a clip purges every entry whose adjacency its removal would
break.  (`moveClipInTimeline` only purges transitions mentioning the
moved clip, so moving a third clip in between two joined clips breaks
the invariant — see the counterexample.) -/
theorem C3_adjacency_invariant_without_move (ops : List EditOp)
    (hnm : ∀ op ∈ ops, ∀ (c : String) (i : ℤ), op ≠ EditOp.move c i) :
    transitionKeysAdjacent (applyOps createTimeline ops) :=
  transitionKeysAdjacent_applyOps ops createTimeline
    (fun kv hkv => absurd hkv (List.not_mem_nil kv)) hnm

theorem C3_adjacency_invariant_without_move_witness :
    transitionKeysAdjacent (applyOps createTimeline
      [EditOp.add "a", EditOp.add "b", EditOp.setTrans "a" "b" crossfade2s,
       EditOp.remove "a"]) :=
  C3_adjacency_invariant_without_move
    [EditOp.add "a", EditOp.add "b", EditOp.setTrans "a" "b" crossfade2s,
     EditOp.remove "a"]
    (by
      intro op hop c i
      rcases List.mem_cons.mp hop with rfl | hop
      · simp
      · rcases List.mem_cons.mp hop with rfl | hop
        · simp
        · rcases List.mem_cons.mp hop with rfl | hop
          · simp
          · rcases List.mem_cons.mp hop with rfl | hop
            · simp
            · simp at hop)

/-- C3 counterexample: the invariant is not preserved by `moveClip`.
Moving clip `c` between `a` and `b` leaves the transition keyed `a_b` in
place although `a` and `b` are no longer adjacent. -/
theorem C3_move_strands_transition :
    applyOps createTimeline
      [EditOp.add "a", EditOp.add "b", EditOp.add "c",
       EditOp.setTrans "a" "b" crossfade2s, EditOp.move "c" 1] =
      { clipIds := ["a", "c", "b"],
        transitions := [(createTransitionKey "a" "b", crossfade2s)] } ∧
    ¬ transitionKeysAdjacent
      { clipIds := ["a", "c", "b"],
        transitions := [(createTransitionKey "a" "b", crossfade2s)] } := by
  constructor
  · rfl
  · intro h
    obtain ⟨f, t, hk, u, v, hl⟩ :=
      h (createTransitionKey "a" "b", crossfade2s) (by simp)
    simp only [createTransitionKey] at hk
    cases u with
    | nil =>
      obtain ⟨rfl, rfl, -⟩ : "a" = f ∧ "c" = t ∧ ["b"] = v := by
        simpa using hl
      exact absurd hk (by decide)
    | cons x u2 =>
      cases u2 with
      | nil =>
        obtain ⟨-, rfl, rfl, -⟩ : "a" = x ∧ "c" = f ∧ "b" = t ∧ ([] : List String) = v := by
          simpa using hl
        exact absurd hk (by decide)
      | cons y u3 =>
        cases u3 with
        | nil => simp at hl
        | cons z u4 =>
          have hlen := congrArg List.length hl
          simp at hlen
